import Mathlib

/-!
Shallow embedding of the position & outcome accounting engine of
`lumina-capital`: the trade-outcome entities (`src/domain/entities/trade_outcome.py`),
the JSON trade-outcome adapter (`src/adapters/storage/json_trade_outcome.py`) and
the paper-trades tracker (`src/adapters/storage/paper_trades_tracker.py`).

Modelling conventions:
* Python floats (prices, quantities, balances) are modelled as `ℚ`; timestamps
  (`datetime`) are modelled as `ℚ` (seconds), so `duration.total_seconds()/3600`
  becomes division by `3600`.
* Wall-clock-only audit fields (`updated_at`, `created_at` on positions,
  the `timestamp` entries of the paper-trade history, `last_updated`) are not
  modelled: no computation reads them.  Where a timestamp is read
  (entry/exit timestamps of lots), the model threads it as an explicit argument
  in place of `datetime.now()`.
* Python's ordered `dict` is modelled as an insertion-ordered association list,
  `uuid4` identifiers as a fresh-counter `Nat`, and the stable `list.sort(key=...)`
  as `List.insertionSort` over the key's total preorder (both are stable sorts,
  hence extensionally equal).
* Free-text reasoning strings are stored but never read by any modelled
  computation, so they are omitted from the record types.
* Disk persistence (`_save`/`_load`) is identity on the in-memory state and is
  not modelled.
-/

namespace LuminaCapital

/-- Python's `str.upper()`.  (Defined as a character-by-character map so that
it computes by structural recursion; extensionally this is `String.toUpper`.) -/
def strUpper (s : String) : String :=
  ⟨s.data.map Char.toUpper⟩

/-- Python's `str.replace("USDT", "")`: drop every (left-to-right,
non-overlapping) occurrence of `"USDT"`. -/
def replaceUSDT : List Char → List Char
  | 'U' :: 'S' :: 'D' :: 'T' :: rest => replaceUSDT rest
  | c :: rest => c :: replaceUSDT rest
  | [] => []

/-- The coin extracted from a trading symbol in `get_open_entries`:
`symbol.replace("USDT", "").upper()`. -/
def symbolToCoin (symbol : String) : String :=
  strUpper ⟨replaceUSDT symbol.data⟩

/-- Status of a trade outcome (`OutcomeStatus` in `trade_outcome.py`). -/
inductive OutcomeStatus where
  | OPEN
  | PARTIAL
  | CLOSED
deriving DecidableEq, Repr

/-- Whether a status is `OPEN` or `PARTIAL` (the `open_statuses` set used by
`get_open_entries`). -/
def OutcomeStatus.isOpenOrPartial : OutcomeStatus → Bool
  | .OPEN => true
  | .PARTIAL => true
  | .CLOSED => false

/-- One purchase lot tracked from entry to exit (`TradeOutcome` in
`trade_outcome.py`).  `outcome_id` models the `uuid4` identifier. -/
structure TradeOutcome where
  outcome_id : Nat
  symbol : String
  coin : String
  entry_price : ℚ
  entry_quantity : ℚ
  entry_timestamp : ℚ
  exit_price : Option ℚ := none
  exit_quantity : Option ℚ := none
  exit_timestamp : Option ℚ := none
  realized_pnl : Option ℚ := none
  realized_pnl_pct : Option ℚ := none
  status : OutcomeStatus := .OPEN
  remaining_quantity : ℚ := 0
  holding_duration_hours : Option ℚ := none
deriving DecidableEq, Repr

/-- `TradeOutcome.record_exit` of `trade_outcome.py`: record an exit on this lot
and compute realized P&L.  `ts` stands for the exit timestamp
(`exit_timestamp or datetime.now()` in the source). -/
def TradeOutcome.record_exit (o : TradeOutcome) (price qty ts : ℚ) : TradeOutcome :=
  let exit_value := price * qty
  let entry_value := o.entry_price * qty
  let pnl := exit_value - entry_value
  let pnl_pct : ℚ := if 0 < o.entry_price then (price / o.entry_price - 1) * 100 else 0
  let dur := (ts - o.entry_timestamp) / 3600
  let rem := o.remaining_quantity - qty
  { o with
    exit_price := some price
    exit_quantity := some qty
    exit_timestamp := some ts
    realized_pnl := some pnl
    realized_pnl_pct := some pnl_pct
    holding_duration_hours := some dur
    status := if rem ≤ 1/1000 then .CLOSED else .PARTIAL
    remaining_quantity := if rem ≤ 1/1000 then 0 else rem }

/-- The `is_winner` property: `None` while no P&L is recorded, otherwise
whether `realized_pnl > 0` (strict). -/
def TradeOutcome.is_winner (o : TradeOutcome) : Option Bool :=
  o.realized_pnl.map (fun p => decide (0 < p))

/-- Python truthiness of `outcome.is_winner` as used in `if outcome.is_winner:`
(`None` and `False` are both falsy). -/
def TradeOutcome.isWinnerTruthy (o : TradeOutcome) : Bool :=
  o.is_winner.getD false

/-- Aggregated per-coin performance (`PositionPerformance` in
`trade_outcome.py`); the wall-clock `updated_at` field is not modelled. -/
structure PositionPerformance where
  symbol : String := ""
  coin : String := ""
  total_trades : Nat := 0
  winning_trades : Nat := 0
  losing_trades : Nat := 0
  total_realized_pnl : ℚ := 0
  total_realized_pnl_pct : ℚ := 0
  best_trade_pnl : ℚ := 0
  worst_trade_pnl : ℚ := 0
  avg_holding_duration_hours : ℚ := 0
deriving DecidableEq, Repr

/-- The `win_rate` property: winning / total × 100, `0` when no trades. -/
def PositionPerformance.win_rate (p : PositionPerformance) : ℚ :=
  if p.total_trades = 0 then 0 else ((p.winning_trades : ℚ) / (p.total_trades : ℚ)) * 100

/-- The `avg_pnl_per_trade` property. -/
def PositionPerformance.avg_pnl_per_trade (p : PositionPerformance) : ℚ :=
  if p.total_trades = 0 then 0 else p.total_realized_pnl / (p.total_trades : ℚ)

/-- `PositionPerformance.update_from_outcome`: fold one closed outcome into the
per-coin aggregate.  Mirrors the source exactly, including the guard
(`status != CLOSED or realized_pnl is None` returns `self` unchanged) and the
Python truthiness test `if outcome.holding_duration_hours:` (both `None` and
`0.0` skip the running-average update). -/
def PositionPerformance.update_from_outcome (p : PositionPerformance) (o : TradeOutcome) :
    PositionPerformance :=
  match o.realized_pnl with
  | none => p
  | some pnl =>
    if o.status ≠ OutcomeStatus.CLOSED then p
    else
      let total := p.total_trades + 1
      let p1 := { p with
        total_trades := total
        winning_trades := if o.isWinnerTruthy then p.winning_trades + 1 else p.winning_trades
        losing_trades := if o.isWinnerTruthy then p.losing_trades else p.losing_trades + 1
        total_realized_pnl := p.total_realized_pnl + pnl
        best_trade_pnl := if p.best_trade_pnl < pnl then pnl else p.best_trade_pnl
        worst_trade_pnl := if pnl < p.worst_trade_pnl then pnl else p.worst_trade_pnl }
      match o.holding_duration_hours with
      | some d =>
        if d ≠ 0 then
          { p1 with avg_holding_duration_hours :=
              (p.avg_holding_duration_hours * ((total : ℚ) - 1) + d) / (total : ℚ) }
        else p1
      | none => p1

/-- Portfolio-wide statistics (`PortfolioStats` in `trade_outcome.py`). -/
structure PortfolioStats where
  total_trades : Nat := 0
  winning_trades : Nat := 0
  losing_trades : Nat := 0
  total_realized_pnl : ℚ := 0
  largest_win : ℚ := 0
  largest_loss : ℚ := 0
  current_streak : Int := 0
  max_winning_streak : Int := 0
  max_losing_streak : Int := 0
  unique_coins_traded : Nat := 0
  first_trade_at : Option ℚ := none
  last_trade_at : Option ℚ := none
deriving DecidableEq, Repr

/-- The portfolio `win_rate` property. -/
def PortfolioStats.win_rate (s : PortfolioStats) : ℚ :=
  if s.total_trades = 0 then 0 else ((s.winning_trades : ℚ) / (s.total_trades : ℚ)) * 100

/-- The body of `JsonTradeOutcomeAdapter._update_portfolio_stats` except for its
final `stats.unique_coins_traded = len(self._position_perfs)` line: counts,
streaks, P&L extrema and the first/last trade timestamps.
`JsonTradeOutcomeAdapter.recalculate_stats` inlines a textual copy of exactly
this block (without the unique-coins line), so both methods are expressed
through this one definition. -/
def updateStatsCore (stats : PortfolioStats) (o : TradeOutcome) : PortfolioStats :=
  let s1 :=
    if o.isWinnerTruthy then
      let streak := if 0 ≤ stats.current_streak then max 1 (stats.current_streak + 1) else 1
      { stats with
        total_trades := stats.total_trades + 1
        winning_trades := stats.winning_trades + 1
        current_streak := streak
        max_winning_streak := max stats.max_winning_streak streak }
    else
      let streak := if stats.current_streak ≤ 0 then min (-1) (stats.current_streak - 1) else -1
      { stats with
        total_trades := stats.total_trades + 1
        losing_trades := stats.losing_trades + 1
        current_streak := streak
        max_losing_streak := max stats.max_losing_streak |streak| }
  let s2 :=
    match o.realized_pnl with
    | some pnl =>
      { s1 with
        total_realized_pnl := s1.total_realized_pnl + pnl
        largest_win := if s1.largest_win < pnl then pnl else s1.largest_win
        largest_loss := if pnl < s1.largest_loss then pnl else s1.largest_loss }
    | none => s1
  match o.exit_timestamp with
  | some ts =>
    { s2 with
      first_trade_at := some (s2.first_trade_at.getD ts)
      last_trade_at := some ts }
  | none => s2

/-- `JsonTradeOutcomeAdapter._update_portfolio_stats`: the shared block above
followed by `stats.unique_coins_traded = len(self._position_perfs)`, where
`perfsCount` is the size of the position-performance dict at that point. -/
def updatePortfolioStats (stats : PortfolioStats) (o : TradeOutcome) (perfsCount : Nat) :
    PortfolioStats :=
  { updateStatsCore stats o with unique_coins_traded := perfsCount }

/-! Association lists model Python's insertion-ordered `dict`: lookup by key,
in-place replacement for an existing key, append for a new key. -/

/-- Dict lookup (`d.get(k)` / `d[k]`). -/
def assocFind {α : Type} (k : String) : List (String × α) → Option α
  | [] => none
  | (k', v) :: rest => if k' = k then some v else assocFind k rest

/-- Dict assignment `d[k] = v`: replaces in place, or appends a new binding. -/
def assocSet {α : Type} (k : String) (v : α) : List (String × α) → List (String × α)
  | [] => [(k, v)]
  | (k', v') :: rest => if k' = k then (k, v) :: rest else (k', v') :: assocSet k v rest

/-- Dict deletion `del d[k]`. -/
def assocErase {α : Type} (k : String) : List (String × α) → List (String × α)
  | [] => []
  | (k', v') :: rest => if k' = k then rest else (k', v') :: assocErase k rest

/-- `JsonTradeOutcomeAdapter._update_position_performance`: create the per-coin
aggregate if absent (seeded with the outcome's symbol/coin), then fold the
outcome into it. -/
def updatePosPerf (perfs : List (String × PositionPerformance)) (o : TradeOutcome) :
    List (String × PositionPerformance) :=
  let coin := strUpper o.coin
  let base : PositionPerformance :=
    match assocFind coin perfs with
    | some p => p
    | none => { symbol := o.symbol, coin := coin }
  assocSet coin (base.update_from_outcome o) perfs

/-- One step of the closed-lot aggregation in `record_exit`: update the
position performance, then the portfolio stats with the new dict size. -/
def onLotClosedStep (acc : List (String × PositionPerformance) × PortfolioStats)
    (o : TradeOutcome) : List (String × PositionPerformance) × PortfolioStats :=
  let perfs := updatePosPerf acc.1 o
  (perfs, updatePortfolioStats acc.2 o perfs.length)

/-- Ordering by entry timestamp, the sort key of `get_open_entries`. -/
def entryLe (a b : TradeOutcome) : Prop :=
  a.entry_timestamp ≤ b.entry_timestamp

instance : DecidableRel entryLe := fun a b =>
  inferInstanceAs (Decidable (a.entry_timestamp ≤ b.entry_timestamp))

instance : IsTotal TradeOutcome entryLe := ⟨fun a b => le_total a.entry_timestamp b.entry_timestamp⟩

instance : IsTrans TradeOutcome entryLe := ⟨fun _ _ _ => le_trans⟩

/-- Order on optional timestamps with `none` at the bottom: this models the
`x.exit_timestamp or datetime.min` sort key of `recalculate_stats`
(`datetime.min` is below every real timestamp). -/
def optTsLe : Option ℚ → Option ℚ → Prop
  | none, _ => True
  | some _, none => False
  | some a, some b => a ≤ b

instance : DecidableRel optTsLe := fun a b => by
  cases a <;> cases b <;> simp only [optTsLe] <;> infer_instance

/-- Ordering by exit timestamp (`none` first), the sort key of
`recalculate_stats`. -/
def exitLe (a b : TradeOutcome) : Prop :=
  optTsLe a.exit_timestamp b.exit_timestamp

instance : DecidableRel exitLe := fun a b =>
  inferInstanceAs (Decidable (optTsLe a.exit_timestamp b.exit_timestamp))

instance : IsTotal TradeOutcome exitLe :=
  ⟨fun a b => by
    unfold exitLe
    rcases a.exit_timestamp with _ | x <;> rcases b.exit_timestamp with _ | y
    · exact Or.inl trivial
    · exact Or.inl trivial
    · exact Or.inr trivial
    · exact le_total x y⟩

instance : IsTrans TradeOutcome exitLe :=
  ⟨fun a b c => by
    unfold exitLe
    rcases a.exit_timestamp with _ | x <;> rcases b.exit_timestamp with _ | y <;>
      rcases c.exit_timestamp with _ | z <;> simp only [optTsLe] <;> intros <;>
      first
        | trivial
        | exact le_trans (by assumption) (by assumption)⟩

/-- In-memory state of `JsonTradeOutcomeAdapter`: the outcome list, the
position-performance dict and the portfolio stats.  `next_id` models the
supply of fresh `uuid4` identifiers. -/
structure AdapterState where
  outcomes : List TradeOutcome := []
  position_perfs : List (String × PositionPerformance) := []
  portfolio_stats : PortfolioStats := {}
  next_id : Nat := 0
deriving DecidableEq, Repr

/-- `JsonTradeOutcomeAdapter.get_open_entries`: all OPEN/PARTIAL outcomes,
optionally filtered by symbol (matching on the extracted coin), sorted by
entry timestamp (FIFO).  Python's stable `sort` is `insertionSort` over the
total preorder `entryLe`. -/
def get_open_entries (outcomes : List TradeOutcome) (symbol : Option String) :
    List TradeOutcome :=
  let entries : List TradeOutcome :=
    match symbol with
    | some s =>
      outcomes.filter (fun o => o.status.isOpenOrPartial && strUpper o.coin == symbolToCoin s)
    | none => outcomes.filter (fun o => o.status.isOpenOrPartial)
  entries.insertionSort entryLe

/-- The matching loop of `JsonTradeOutcomeAdapter.record_exit` over the FIFO
list of open entries: break when the quantity left to exit is `≤ 0`, otherwise
consume `min(entry.remaining_quantity, remaining_to_exit)` from the head entry,
update the aggregates if that entry closed, and continue.  Returns the list of
touched entries (the source's `closed_outcomes`, which also contains entries
left PARTIAL) together with the updated aggregates. -/
def exitLoop (price ts : ℚ) :
    List TradeOutcome → ℚ → List (String × PositionPerformance) → PortfolioStats →
      List TradeOutcome × List (String × PositionPerformance) × PortfolioStats
  | [], _, perfs, stats => ([], perfs, stats)
  | e :: rest, left, perfs, stats =>
    if left ≤ 0 then ([], perfs, stats)
    else
      let exit_qty := min e.remaining_quantity left
      let e' := e.record_exit price exit_qty ts
      let acc :=
        if e'.status = OutcomeStatus.CLOSED then onLotClosedStep (perfs, stats) e'
        else (perfs, stats)
      let r := exitLoop price ts rest (left - exit_qty) acc.1 acc.2
      (e' :: r.1, r.2)

/-- The in-place mutation of the shared `TradeOutcome` objects: an outcome
touched by the exit loop (identified by its id) is replaced by its updated
version, every other outcome is unchanged. -/
def writeBackTouched (touched : List TradeOutcome) (o : TradeOutcome) : TradeOutcome :=
  match touched.find? (fun t => t.outcome_id == o.outcome_id) with
  | some t => t
  | none => o

/-- `JsonTradeOutcomeAdapter.record_exit`: FIFO-match `qty` against the open
entries for `symbol`.  The Python loop mutates the shared `TradeOutcome`
objects in place; the model writes every touched entry back into the outcome
list by its identifier.  Returns the updated state and the touched entries. -/
def AdapterState.record_exit (st : AdapterState) (symbol : String) (price qty ts : ℚ) :
    AdapterState × List TradeOutcome :=
  let openEntries := get_open_entries st.outcomes (some symbol)
  if openEntries.isEmpty then (st, [])
  else
    let r := exitLoop price ts openEntries qty st.position_perfs st.portfolio_stats
    let touched := r.1
    ({ st with
        outcomes := st.outcomes.map (writeBackTouched touched)
        position_perfs := r.2.1
        portfolio_stats := r.2.2 },
      touched)

/-- `JsonTradeOutcomeAdapter.record_entry`: append a fresh OPEN lot with
`remaining_quantity = quantity`. -/
def AdapterState.record_entry (st : AdapterState) (symbol coin : String) (price qty ts : ℚ) :
    AdapterState × TradeOutcome :=
  let o : TradeOutcome :=
    { outcome_id := st.next_id
      symbol := symbol
      coin := strUpper coin
      entry_price := price
      entry_quantity := qty
      entry_timestamp := ts
      status := OutcomeStatus.OPEN
      remaining_quantity := qty }
  ({ st with outcomes := st.outcomes ++ [o], next_id := st.next_id + 1 }, o)

/-- Insertion into the `unique_coins: set[str]` of `recalculate_stats`
(only its size is ever read). -/
def setInsert (s : List String) (c : String) : List String :=
  if c ∈ s then s else s ++ [c]

/-- `JsonTradeOutcomeAdapter.recalculate_stats`: reset both aggregates, take
all CLOSED outcomes sorted by exit timestamp ascending (stable sort, `none`
modelling `datetime.min`), and replay the per-lot update — a textual copy of
`_update_portfolio_stats` without its unique-coins line (`updateStatsCore`) —
collecting the distinct coins, whose count becomes `unique_coins_traded`. -/
def AdapterState.recalculate_stats (st : AdapterState) : AdapterState :=
  let closed := st.outcomes.filter (fun o => o.status == OutcomeStatus.CLOSED)
  let sorted := closed.insertionSort exitLe
  let acc := sorted.foldl
    (fun acc (o : TradeOutcome) =>
      (setInsert acc.1 (strUpper o.coin), updatePosPerf acc.2.1 o, updateStatsCore acc.2.2 o))
    (([] : List String), ([] : List (String × PositionPerformance)), ({} : PortfolioStats))
  { st with
    position_perfs := acc.2.1
    portfolio_stats := { acc.2.2 with unique_coins_traded := acc.1.length } }

/-! Paper-trades tracker (`src/adapters/storage/paper_trades_tracker.py`),
the weighted-average cost-basis ledger and the simulated USDT balance. -/

/-- A weighted-average position (`PaperPosition` in `paper_trades_port.py`);
the wall-clock `created_at`/`updated_at` fields are not modelled. -/
structure PaperPosition where
  coin : String
  quantity : ℚ
  avg_entry_price : ℚ
  total_cost : ℚ
deriving DecidableEq, Repr

/-- One entry of the `_trade_history` list (`side` is the `"type"` key);
the wall-clock `timestamp` key is not modelled. -/
structure TradeHistoryEntry where
  side : String
  coin : String
  quantity : ℚ
  price : ℚ
  realized_pnl : Option ℚ := none
deriving DecidableEq, Repr

/-- The `_balance` record of the tracker; the wall-clock `updated_at` key is
not modelled. -/
structure BalanceRecord where
  initial_balance : ℚ
  current_balance : ℚ
  last_known_real_balance : ℚ
deriving DecidableEq, Repr

/-- In-memory state of `PaperTradesTracker`. -/
structure TrackerState where
  positions : List (String × PaperPosition) := []
  trade_history : List TradeHistoryEntry := []
  balance : Option BalanceRecord := none
deriving DecidableEq, Repr

/-- `PaperTradesTracker.deduct_usdt`: subtract from the current balance;
a missing balance record is a no-op (logged warning, never auto-initializes). -/
def TrackerState.deduct_usdt (st : TrackerState) (amount : ℚ) : TrackerState :=
  match st.balance with
  | none => st
  | some b => { st with balance := some { b with current_balance := b.current_balance - amount } }

/-- `PaperTradesTracker.add_usdt`: add to the current balance;
a missing balance record is a no-op (logged warning, never auto-initializes). -/
def TrackerState.add_usdt (st : TrackerState) (amount : ℚ) : TrackerState :=
  match st.balance with
  | none => st
  | some b => { st with balance := some { b with current_balance := b.current_balance + amount } }

/-- `PaperTradesTracker.initialize_balance`: a no-op when a balance record
already exists, otherwise seeds initial/current/last-known-real to
`real_balance`. -/
def TrackerState.initialize_balance (st : TrackerState) (real_balance : ℚ) : TrackerState :=
  match st.balance with
  | some _ => st
  | none =>
    { st with
      balance := some
        { initial_balance := real_balance
          current_balance := real_balance
          last_known_real_balance := real_balance } }

/-- `PaperTradesTracker.get_paper_usdt_balance`: reconcile against the real
exchange balance.  Uninitialized: initialize and return the real balance.
Otherwise, a real-balance increase over `last_known_real_balance` is a deposit:
its amount is added to `current_balance` and `last_known_real_balance`
advances; a decrease changes nothing.  Returns the (possibly adjusted)
current balance together with the updated state. -/
def TrackerState.get_paper_usdt_balance (st : TrackerState) (current_real_balance : ℚ) :
    TrackerState × ℚ :=
  match st.balance with
  | none => (st.initialize_balance current_real_balance, current_real_balance)
  | some b =>
    if b.last_known_real_balance < current_real_balance then
      let deposit := current_real_balance - b.last_known_real_balance
      let newBalance := b.current_balance + deposit
      ({ st with
          balance := some
            { b with
              current_balance := newBalance
              last_known_real_balance := current_real_balance } },
        newBalance)
    else (st, b.current_balance)

/-- `PaperTradesTracker.record_buy`: weighted-average update of the position
(creating it on first buy), then `deduct_usdt(quantity * price)` and a
trade-history append.  Returns the updated state and position. -/
def TrackerState.record_buy (st : TrackerState) (coin0 : String) (quantity price : ℚ) :
    TrackerState × PaperPosition :=
  let coin := strUpper coin0
  let pos : PaperPosition :=
    match assocFind coin st.positions with
    | some existing =>
      let new_total_cost := existing.total_cost + quantity * price
      let new_quantity := existing.quantity + quantity
      let new_avg_price : ℚ := if 0 < new_quantity then new_total_cost / new_quantity else 0
      { coin := coin
        quantity := new_quantity
        avg_entry_price := new_avg_price
        total_cost := new_total_cost }
    | none =>
      { coin := coin
        quantity := quantity
        avg_entry_price := price
        total_cost := quantity * price }
  let st1 := { st with positions := assocSet coin pos st.positions }
  let st2 := st1.deduct_usdt (quantity * price)
  let st3 := { st2 with
    trade_history := st2.trade_history ++
      [{ side := "buy", coin := coin, quantity := quantity, price := price }] }
  (st3, pos)

/-- `PaperTradesTracker.record_sell`: with no position for the coin, a warning
and `None` (no state change).  Otherwise the quantity is reduced; a result
`≤ 0` deletes the position entirely (returning `None`), else the position
shrinks keeping `avg_entry_price` fixed.  Either way `add_usdt(quantity *
price)` is credited and a history entry (with realized P&L against the average
entry price) appended. -/
def TrackerState.record_sell (st : TrackerState) (coin0 : String) (quantity price : ℚ) :
    TrackerState × Option PaperPosition :=
  let coin := strUpper coin0
  match assocFind coin st.positions with
  | none => (st, none)
  | some existing =>
    let new_quantity := existing.quantity - quantity
    let positionsResult : List (String × PaperPosition) × Option PaperPosition :=
      if new_quantity ≤ 0 then (assocErase coin st.positions, none)
      else
        let pos : PaperPosition :=
          { coin := coin
            quantity := new_quantity
            avg_entry_price := existing.avg_entry_price
            total_cost := new_quantity * existing.avg_entry_price }
        (assocSet coin pos st.positions, some pos)
    let st1 := { st with positions := positionsResult.1 }
    let st2 := st1.add_usdt (quantity * price)
    let st3 := { st2 with
      trade_history := st2.trade_history ++
        [{ side := "sell", coin := coin, quantity := quantity, price := price
           realized_pnl := some ((price - existing.avg_entry_price) * quantity) }] }
    (st3, positionsResult.2)

/-- A buy or sell call on the cost-basis ledger. -/
inductive TrackerEvent where
  | buy (coin : String) (quantity price : ℚ)
  | sell (coin : String) (quantity price : ℚ)
deriving DecidableEq, Repr

/-- Apply one ledger event to the tracker state. -/
def applyTrackerEvent (st : TrackerState) : TrackerEvent → TrackerState
  | .buy coin quantity price => (st.record_buy coin quantity price).1
  | .sell coin quantity price => (st.record_sell coin quantity price).1

/-- A trade-execution event driving the outcome adapter: an entry (buy) or an
exit (sell), with its `datetime.now()` timestamp made explicit. -/
inductive Event where
  | entry (symbol coin : String) (price qty ts : ℚ)
  | exitEv (symbol : String) (price qty ts : ℚ)
deriving DecidableEq, Repr

/-- The timestamp carried by an event. -/
def Event.ts : Event → ℚ
  | .entry _ _ _ _ ts => ts
  | .exitEv _ _ _ ts => ts

/-- Apply one trade event to the adapter state. -/
def applyEvent (st : AdapterState) : Event → AdapterState
  | .entry symbol coin price qty ts => (st.record_entry symbol coin price qty ts).1
  | .exitEv symbol price qty ts => (st.record_exit symbol price qty ts).1

/-! Concrete scenarios used by the claims. -/

/-- Scenario for the partial-fill property: one entry of quantity 3 at price 10. -/
def c2_state1 : AdapterState :=
  (({} : AdapterState).record_entry "XYZUSDT" "XYZ" 10 3 0).1

/-- First exit of the partial-fill scenario: sell quantity 1 at price 15. -/
def c2_exit1 : AdapterState × List TradeOutcome :=
  c2_state1.record_exit "XYZUSDT" 15 1 3600

/-- Second exit of the partial-fill scenario: sell quantity 2 at price 12. -/
def c2_exit2 : AdapterState × List TradeOutcome :=
  c2_exit1.1.record_exit "XYZUSDT" 12 2 7200

/-- C2: for a lot opened with entry quantity 3 at price 10, an exit of quantity
1 at price 15 leaves the lot PARTIAL with remaining quantity 2 and realized
P&L 5; a second exit of quantity 2 at price 12 closes the lot with realized
P&L 4 for that exit, and the cumulative realized P&L across both exits is 9. -/
theorem C2_partial_fill :
    c2_exit1.2.map TradeOutcome.outcome_id = [0] ∧
    c2_exit1.2.map TradeOutcome.status = [OutcomeStatus.PARTIAL] ∧
    c2_exit1.2.map TradeOutcome.remaining_quantity = [2] ∧
    c2_exit1.2.map TradeOutcome.realized_pnl = [some 5] ∧
    c2_exit2.2.map TradeOutcome.outcome_id = [0] ∧
    c2_exit2.2.map TradeOutcome.status = [OutcomeStatus.CLOSED] ∧
    c2_exit2.2.map TradeOutcome.remaining_quantity = [0] ∧
    c2_exit2.2.map TradeOutcome.realized_pnl = [some 4] ∧
    (c2_exit1.2.map (fun o => o.realized_pnl.getD 0)).sum +
      (c2_exit2.2.map (fun o => o.realized_pnl.getD 0)).sum = 9 := by
  norm_num [c2_exit2, c2_exit1, c2_state1, AdapterState.record_entry,
    AdapterState.record_exit, writeBackTouched, List.find?, get_open_entries, exitLoop, TradeOutcome.record_exit,
    TradeOutcome.is_winner, TradeOutcome.isWinnerTruthy, symbolToCoin, strUpper, replaceUSDT,
    OutcomeStatus.isOpenOrPartial, List.filter, List.insertionSort, List.orderedInsert,
    onLotClosedStep, updatePosPerf, updatePortfolioStats, updateStatsCore, assocFind,
    assocSet, PositionPerformance.update_from_outcome]

/-- C9: with no balance record, `deduct_usdt`/`add_usdt` are no-ops (the state,
including the absent balance record, is completely unchanged — no
auto-initialization); with a balance record, they unconditionally subtract/add
the amount from/to `current_balance`. -/
theorem C9_debit_credit_missing_balance (st : TrackerState) (amount : ℚ) :
    (st.balance = none → st.deduct_usdt amount = st ∧ st.add_usdt amount = st) ∧
    (∀ b, st.balance = some b →
      st.deduct_usdt amount =
        { st with balance := some { b with current_balance := b.current_balance - amount } } ∧
      st.add_usdt amount =
        { st with balance := some { b with current_balance := b.current_balance + amount } }) := by
  refine ⟨fun h => ⟨?_, ?_⟩, fun b h => ⟨?_, ?_⟩⟩ <;>
    simp [TrackerState.deduct_usdt, TrackerState.add_usdt, h]

/-- Closed instance of `C9_debit_credit_missing_balance`: on the empty tracker
state (no balance record) a debit of 5 changes nothing. -/
theorem C9_debit_credit_missing_balance_witness :
    ({} : TrackerState).deduct_usdt 5 = ({} : TrackerState) ∧
    ({} : TrackerState).add_usdt 5 = ({} : TrackerState) :=
  (C9_debit_credit_missing_balance ({} : TrackerState) 5).1 rfl

/-- Scenario for deposit detection: a balance initialized at 1000. -/
def c7_state0 : TrackerState :=
  TrackerState.initialize_balance {} 1000

/-- C7: reconciliation (`get_paper_usdt_balance`) on an initialized balance
adds a real-balance increase over `last_known_real_balance` to
`current_balance` and advances `last_known_real_balance`; a decrease (or no
change) alters neither field.  Concretely from a balance initialized at 1000:
reconciling with 1000 changes nothing, reconciling with 1500 yields current
balance 1500 and last-known-real 1500, and a subsequent reconcile with 1200
leaves the current balance at 1500. -/
theorem C7_deposit_detection :
    (∀ (st : TrackerState) (b : BalanceRecord) (real : ℚ), st.balance = some b →
      b.last_known_real_balance < real →
      st.get_paper_usdt_balance real =
        ({ st with
            balance := some { b with
              current_balance := b.current_balance + (real - b.last_known_real_balance)
              last_known_real_balance := real } },
          b.current_balance + (real - b.last_known_real_balance))) ∧
    (∀ (st : TrackerState) (b : BalanceRecord) (real : ℚ), st.balance = some b →
      real ≤ b.last_known_real_balance →
      st.get_paper_usdt_balance real = (st, b.current_balance)) ∧
    (c7_state0.get_paper_usdt_balance 1000 = (c7_state0, 1000) ∧
      ((c7_state0.get_paper_usdt_balance 1500).1.balance.map BalanceRecord.current_balance
        = some 1500) ∧
      ((c7_state0.get_paper_usdt_balance 1500).1.balance.map
        BalanceRecord.last_known_real_balance = some 1500) ∧
      (c7_state0.get_paper_usdt_balance 1500).2 = 1500 ∧
      ((c7_state0.get_paper_usdt_balance 1500).1.get_paper_usdt_balance 1200
        = ((c7_state0.get_paper_usdt_balance 1500).1, 1500))) := by
  refine ⟨?_, ?_, ?_⟩
  · intro st b real h hlt
    simp [TrackerState.get_paper_usdt_balance, h, hlt]
  · intro st b real h hle
    simp [TrackerState.get_paper_usdt_balance, h, not_lt.mpr hle]
  · norm_num [c7_state0, TrackerState.initialize_balance, TrackerState.get_paper_usdt_balance]

/-- Closed instance of `C7_deposit_detection`: from a balance record with
last-known-real 1000 and current balance 1000, reconciling with 1500 credits
the difference and advances the last-known-real balance. -/
theorem C7_deposit_detection_witness :
    c7_state0.get_paper_usdt_balance 1500 =
      ({ c7_state0 with
          balance := some { initial_balance := 1000
                            current_balance := 1000 + (1500 - 1000)
                            last_known_real_balance := 1500 } },
        1000 + (1500 - 1000)) :=
  C7_deposit_detection.1 c7_state0
    { initial_balance := 1000, current_balance := 1000, last_known_real_balance := 1000 }
    1500 rfl (by norm_num)

/-- Scenario for the over-sell behaviour: an initialized balance of 1000 and a
position of 1 BTC bought at 10 (so current balance 990, one history entry). -/
def c3_state1 : TrackerState :=
  ((TrackerState.initialize_balance {} 1000).record_buy "BTC" 1 10).1

/-- The over-sell call: sell quantity 2 at price 20 while only 1 is held. -/
def c3_sell : TrackerState × Option PaperPosition :=
  c3_state1.record_sell "BTC" 2 20

/-- Counterexample to C3: with 1 BTC held (bought at 10, current balance 990),
`record_sell` of quantity 2 at price 20 is not rejected and mutates all three
state components: the position is deleted, the balance is credited the full
2 × 20 = 40 (to 1030), and a sell entry for the full quantity 2 is appended to
the trade history. -/
theorem C3_oversell_counterexample :
    assocFind "BTC" c3_state1.positions =
      some { coin := "BTC", quantity := 1, avg_entry_price := 10, total_cost := 10 } ∧
    c3_state1.balance.map BalanceRecord.current_balance = some 990 ∧
    c3_state1.trade_history.length = 1 ∧
    c3_sell.2 = none ∧
    c3_sell.1.positions = [] ∧
    c3_sell.1.balance.map BalanceRecord.current_balance = some 1030 ∧
    c3_sell.1.trade_history =
      c3_state1.trade_history ++
        [{ side := "sell", coin := "BTC", quantity := 2, price := 20,
           realized_pnl := some ((20 - 10) * 2) }] := by
  norm_num [c3_sell, c3_state1, TrackerState.initialize_balance, TrackerState.record_buy,
    TrackerState.record_sell, TrackerState.deduct_usdt, TrackerState.add_usdt,
    assocFind, assocSet, assocErase, strUpper] <;> decide

/-- C3 as amended: selling an asset with no open position is reported as `None`
and is a complete no-op (no state component changes); but selling a quantity
strictly greater than the held quantity is NOT rejected: the call proceeds and
mutates state — the position is deleted outright, the simulated balance is
credited the full `quantity × price` (the quantity is not clamped to the held
amount), and a sell record for the full requested quantity is appended to the
trade history, with `None` returned. -/
theorem C3_sell_error_handling (st : TrackerState) (coin : String) (qty price : ℚ) :
    (assocFind (strUpper coin) st.positions = none →
      st.record_sell coin qty price = (st, none)) ∧
    (∀ existing, assocFind (strUpper coin) st.positions = some existing →
      existing.quantity < qty →
      (st.record_sell coin qty price).2 = none ∧
      (st.record_sell coin qty price).1.positions = assocErase (strUpper coin) st.positions ∧
      (st.record_sell coin qty price).1.balance = (st.add_usdt (qty * price)).balance ∧
      (st.record_sell coin qty price).1.trade_history =
        st.trade_history ++
          [{ side := "sell", coin := strUpper coin, quantity := qty, price := price,
             realized_pnl := some ((price - existing.avg_entry_price) * qty) }]) := by
  constructor
  · intro h
    simp [TrackerState.record_sell, h]
  · intro existing h hlt
    refine ⟨?_, ?_, ?_, ?_⟩ <;> cases hb : st.balance <;>
      simp [TrackerState.record_sell, TrackerState.add_usdt, h, hlt.le, hb]

/-- Closed instance of `C3_sell_error_handling`: the no-position branch on the
empty state, and the over-sell branch on the concrete 1-BTC state. -/
theorem C3_sell_error_handling_witness :
    ({} : TrackerState).record_sell "BTC" 1 10 = ({}, none) ∧
    c3_sell.2 = none ∧
    c3_sell.1.positions = assocErase "BTC" c3_state1.positions := by
  have hbtc : strUpper "BTC" = "BTC" := by decide
  have h1 := (C3_sell_error_handling ({} : TrackerState) "BTC" 1 10).1 (by simp [assocFind])
  have h2 := (C3_sell_error_handling c3_state1 "BTC" 2 20).2
    { coin := "BTC", quantity := 1, avg_entry_price := 10, total_cost := 10 }
    (by rw [hbtc]
        norm_num [c3_state1, TrackerState.initialize_balance, TrackerState.record_buy,
          TrackerState.deduct_usdt, assocFind, assocSet, strUpper] <;> decide)
    (by norm_num)
  refine ⟨h1, h2.1, ?_⟩
  have h3 := h2.2.1
  rw [hbtc] at h3
  exact h3

/-- C10: the winner test is strict (`realized_pnl > 0`), so a closed lot with
realized P&L exactly zero is counted as a losing trade by both the per-asset
`PositionPerformance.update_from_outcome` and the portfolio-stats update
(losing count incremented, winning count unchanged); consequently it strictly
lowers a positive per-asset win rate and extends a non-positive streak by one
(or resets a positive streak to −1). -/
theorem C10_zero_pnl_is_loss (p : PositionPerformance) (stats : PortfolioStats)
    (o : TradeOutcome) (hpnl : o.realized_pnl = some 0) :
    o.is_winner = some false ∧
    (o.status = OutcomeStatus.CLOSED →
      (p.update_from_outcome o).losing_trades = p.losing_trades + 1 ∧
      (p.update_from_outcome o).winning_trades = p.winning_trades ∧
      (p.update_from_outcome o).total_trades = p.total_trades + 1) ∧
    (updateStatsCore stats o).losing_trades = stats.losing_trades + 1 ∧
    (updateStatsCore stats o).winning_trades = stats.winning_trades ∧
    (o.status = OutcomeStatus.CLOSED → 0 < p.winning_trades → 0 < p.total_trades →
      (p.update_from_outcome o).win_rate < p.win_rate) ∧
    (updateStatsCore stats o).current_streak =
      (if stats.current_streak ≤ 0 then stats.current_streak - 1 else -1) := by
  have hw : o.isWinnerTruthy = false := by
    simp [TradeOutcome.isWinnerTruthy, TradeOutcome.is_winner, hpnl]
  refine ⟨?_, fun hst => ?_, ?_, ?_, fun hst hwin htot => ?_, ?_⟩
  · simp [TradeOutcome.is_winner, hpnl]
  · refine ⟨?_, ?_, ?_⟩ <;>
      · simp only [PositionPerformance.update_from_outcome, hpnl, hst, hw]
        cases o.holding_duration_hours <;> simp <;> split <;> simp
  · simp [updateStatsCore, hw, hpnl]
    cases o.exit_timestamp <;> simp
  · simp [updateStatsCore, hw, hpnl]
    cases o.exit_timestamp <;> simp
  · have hup : (p.update_from_outcome o).winning_trades = p.winning_trades ∧
        (p.update_from_outcome o).total_trades = p.total_trades + 1 := by
      constructor <;>
        · simp only [PositionPerformance.update_from_outcome, hpnl, hst, hw]
          cases o.holding_duration_hours <;> simp <;> split <;> simp
    rw [PositionPerformance.win_rate, PositionPerformance.win_rate, hup.1, hup.2]
    rw [if_neg (by omega), if_neg (by omega)]
    have h1 : (0 : ℚ) < (p.winning_trades : ℚ) := by exact_mod_cast hwin
    have h2 : (0 : ℚ) < (p.total_trades : ℚ) := by exact_mod_cast htot
    have h3 : (p.total_trades : ℚ) < ((p.total_trades + 1 : ℕ) : ℚ) := by
      push_cast
      linarith
    have := div_lt_div_of_pos_left h1 h2 h3
    have h100 : (0:ℚ) < 100 := by norm_num
    exact (mul_lt_mul_of_pos_right this h100)
  · simp only [updateStatsCore, hw, hpnl, Bool.false_eq_true, if_false]
    cases o.exit_timestamp <;> split <;> simp_all <;> omega

/-- Closed instance of `C10_zero_pnl_is_loss`: a zero-P&L closed lot turns a
1-win/1-trade aggregate (win rate 100) into 1 win of 2 trades, and a +2 streak
into −1. -/
theorem C10_zero_pnl_is_loss_witness :
    (({ total_trades := 1, winning_trades := 1 } : PositionPerformance).update_from_outcome
        { outcome_id := 0, symbol := "X", coin := "X", entry_price := 1, entry_quantity := 1,
          entry_timestamp := 0, realized_pnl := some 0,
          status := OutcomeStatus.CLOSED }).win_rate <
      ({ total_trades := 1, winning_trades := 1 } : PositionPerformance).win_rate ∧
    (updateStatsCore { current_streak := 2 }
        { outcome_id := 0, symbol := "X", coin := "X", entry_price := 1, entry_quantity := 1,
          entry_timestamp := 0, realized_pnl := some 0,
          status := OutcomeStatus.CLOSED }).current_streak = -1 := by
  have h := C10_zero_pnl_is_loss
    ({ total_trades := 1, winning_trades := 1 } : PositionPerformance)
    ({ current_streak := 2 } : PortfolioStats)
    { outcome_id := 0, symbol := "X", coin := "X", entry_price := 1, entry_quantity := 1,
      entry_timestamp := 0, realized_pnl := some 0, status := OutcomeStatus.CLOSED }
    rfl
  refine ⟨h.2.2.2.2.1 rfl (by norm_num) (by norm_num), ?_⟩
  rw [h.2.2.2.2.2]
  norm_num

/-! Cost-basis invariant machinery (claim C4). -/

theorem mem_assocSet {α : Type} {k : String} {v : α} {l : List (String × α)}
    {pr : String × α} : pr ∈ assocSet k v l → pr = (k, v) ∨ pr ∈ l := by
  induction l with
  | nil =>
    intro h
    simpa [assocSet] using h
  | cons hd tl ih =>
    rcases hd with ⟨k', v'⟩
    intro h
    by_cases hk : k' = k
    · rw [assocSet, if_pos hk] at h
      rcases List.mem_cons.mp h with h1 | h1
      · exact Or.inl h1
      · exact Or.inr (List.mem_cons_of_mem _ h1)
    · rw [assocSet, if_neg hk] at h
      rcases List.mem_cons.mp h with h1 | h1
      · exact Or.inr (h1 ▸ List.mem_cons_self _ _)
      · rcases ih h1 with h2 | h2
        · exact Or.inl h2
        · exact Or.inr (List.mem_cons_of_mem _ h2)

theorem mem_assocErase {α : Type} {k : String} {l : List (String × α)}
    {pr : String × α} : pr ∈ assocErase k l → pr ∈ l := by
  induction l with
  | nil =>
    intro h
    simpa [assocErase] using h
  | cons hd tl ih =>
    rcases hd with ⟨k', v'⟩
    intro h
    by_cases hk : k' = k
    · rw [assocErase, if_pos hk] at h
      exact List.mem_cons_of_mem _ h
    · rw [assocErase, if_neg hk] at h
      rcases List.mem_cons.mp h with h1 | h1
      · exact h1 ▸ List.mem_cons_self _ _
      · exact List.mem_cons_of_mem _ (ih h1)

theorem assocFind_some_mem {α : Type} {k : String} {v : α} {l : List (String × α)} :
    assocFind k l = some v → (k, v) ∈ l := by
  induction l with
  | nil =>
    intro h
    simp [assocFind] at h
  | cons hd tl ih =>
    intro h
    rw [assocFind] at h
    split at h
    · cases h
      rename_i heq
      exact heq ▸ List.mem_cons_self _ _
    · exact List.mem_cons_of_mem _ (ih h)

/-- The cost-basis invariant: every stored position has
`total_cost = quantity × avg_entry_price` and positive quantity. -/
def PosInvariant (st : TrackerState) : Prop :=
  ∀ pr ∈ st.positions,
    (pr.2).total_cost = (pr.2).quantity * (pr.2).avg_entry_price ∧ 0 < (pr.2).quantity

/-- The contract precondition of the ledger (§4.1: `quantity > 0` on buys;
sells carry no precondition for the invariant). -/
def TrackerEvent.validQty : TrackerEvent → Prop
  | .buy _ q _ => 0 < q
  | .sell _ _ _ => True

theorem deduct_usdt_positions (st : TrackerState) (a : ℚ) :
    (st.deduct_usdt a).positions = st.positions := by
  cases h : st.balance <;> simp [TrackerState.deduct_usdt, h]

theorem add_usdt_positions (st : TrackerState) (a : ℚ) :
    (st.add_usdt a).positions = st.positions := by
  cases h : st.balance <;> simp [TrackerState.add_usdt, h]

theorem record_buy_invariant {st : TrackerState} (coin : String) {qty : ℚ} (price : ℚ)
    (h : PosInvariant st) (hq : 0 < qty) : PosInvariant (st.record_buy coin qty price).1 := by
  intro pr hpr
  rw [TrackerState.record_buy] at hpr
  simp only [deduct_usdt_positions] at hpr
  rcases mem_assocSet hpr with h' | h'
  · subst h'
    cases hf : assocFind (strUpper coin) st.positions with
    | none =>
      simp only [hf]
      exact ⟨by trivial, hq⟩
    | some existing =>
      have hex := h _ (assocFind_some_mem hf)
      have hpos : 0 < existing.quantity + qty := by linarith [hex.2]
      simp only [hf, if_pos hpos]
      refine ⟨?_, hpos⟩
      field_simp
  · exact h _ h'

theorem record_sell_invariant {st : TrackerState} (coin : String) (qty price : ℚ)
    (h : PosInvariant st) : PosInvariant (st.record_sell coin qty price).1 := by
  intro pr hpr
  rw [TrackerState.record_sell] at hpr
  cases hf : assocFind (strUpper coin) st.positions with
  | none =>
    simp only [hf] at hpr
    exact h _ hpr
  | some existing =>
    simp only [hf, add_usdt_positions] at hpr
    by_cases hle : existing.quantity - qty ≤ 0
    · rw [if_pos hle] at hpr
      exact h _ (mem_assocErase hpr)
    · rw [if_neg hle] at hpr
      rcases mem_assocSet hpr with h' | h'
      · subst h'
        refine ⟨rfl, ?_⟩
        show (0 : ℚ) < existing.quantity - qty
        linarith [not_le.mp hle]
      · exact h _ h'

theorem foldl_tracker_invariant (events : List TrackerEvent) (st : TrackerState)
    (h : PosInvariant st) (hv : ∀ e ∈ events, e.validQty) :
    PosInvariant (events.foldl applyTrackerEvent st) := by
  induction events generalizing st with
  | nil => exact h
  | cons e rest ih =>
    rw [List.foldl_cons]
    refine ih _ ?_ (fun e' he' => hv e' (List.mem_cons_of_mem _ he'))
    cases e with
    | buy coin qty price =>
      exact record_buy_invariant coin price h (hv _ (List.mem_cons_self _ _))
    | sell coin qty price => exact record_sell_invariant coin qty price h

/-- First buy of the weighted-average scenario: 1 ETH at 10 from the empty
tracker state. -/
def c4_state1 : TrackerState :=
  (({} : TrackerState).record_buy "ETH" 1 10).1

/-- Second buy of the weighted-average scenario: 1 ETH at 20. -/
def c4_buy2 : TrackerState × PaperPosition :=
  c4_state1.record_buy "ETH" 1 20

/-- C4: the cost-basis invariant `total_cost = quantity × avg_entry_price`
(with positive quantity) holds for every position after any sequence of
`record_buy`/`record_sell` calls with positive buy quantities; a buy on an
existing position yields the weighted average
`(total_cost + qty×price)/(quantity + qty)`; a sell leaves the average entry
price unchanged and only shrinks quantity and total cost.  Concretely: buying
1 @ 10 then 1 @ 20 gives average 15 and total cost 30, and a following sell of
quantity 1 at any price leaves the average at 15. -/
theorem C4_weighted_average_invariant :
    (∀ (events : List TrackerEvent) (st : TrackerState), PosInvariant st →
      (∀ e ∈ events, e.validQty) →
      PosInvariant (events.foldl applyTrackerEvent st)) ∧
    (∀ (st : TrackerState) (coin : String) (qty price : ℚ) (existing : PaperPosition),
      assocFind (strUpper coin) st.positions = some existing →
      (st.record_buy coin qty price).2.quantity = existing.quantity + qty ∧
      (st.record_buy coin qty price).2.total_cost = existing.total_cost + qty * price ∧
      (0 < existing.quantity + qty →
        (st.record_buy coin qty price).2.avg_entry_price =
          (existing.total_cost + qty * price) / (existing.quantity + qty))) ∧
    (∀ (st : TrackerState) (coin : String) (qty price : ℚ)
        (existing pos' : PaperPosition),
      assocFind (strUpper coin) st.positions = some existing →
      (st.record_sell coin qty price).2 = some pos' →
      pos'.avg_entry_price = existing.avg_entry_price ∧
      pos'.quantity = existing.quantity - qty ∧
      pos'.total_cost = (existing.quantity - qty) * existing.avg_entry_price) ∧
    (c4_buy2.2.quantity = 2 ∧ c4_buy2.2.avg_entry_price = 15 ∧ c4_buy2.2.total_cost = 30 ∧
      ∀ p : ℚ, ((c4_buy2.1.record_sell "ETH" 1 p).2.map PaperPosition.avg_entry_price)
        = some 15) := by
  refine ⟨foldl_tracker_invariant, ?_, ?_, ?_⟩
  · intro st coin qty price existing hf
    refine ⟨?_, ?_, fun hpos => ?_⟩
    · simp [TrackerState.record_buy, hf]
    · simp [TrackerState.record_buy, hf]
    · simp [TrackerState.record_buy, hf, hpos]
  · intro st coin qty price existing pos' hf hsome
    rw [TrackerState.record_sell] at hsome
    simp only [hf] at hsome
    by_cases hle : existing.quantity - qty ≤ 0
    · rw [if_pos hle] at hsome
      simp at hsome
    · rw [if_neg hle] at hsome
      simp only [Option.some.injEq] at hsome
      subst hsome
      exact ⟨rfl, rfl, rfl⟩
  · refine ⟨?_, ?_, ?_, fun p => ?_⟩ <;>
      norm_num [c4_buy2, c4_state1, TrackerState.record_buy, TrackerState.record_sell,
        TrackerState.deduct_usdt, TrackerState.add_usdt, assocFind, assocSet, strUpper]

/-- Closed instance of `C4_weighted_average_invariant`: the invariant holds
after the concrete event sequence buy 1 @ 10, buy 1 @ 20, sell 1 @ 17 from the
empty state. -/
theorem C4_weighted_average_invariant_witness :
    PosInvariant
      ([TrackerEvent.buy "ETH" 1 10, TrackerEvent.buy "ETH" 1 20,
        TrackerEvent.sell "ETH" 1 17].foldl applyTrackerEvent ({} : TrackerState)) := by
  refine C4_weighted_average_invariant.1 _ _ (fun pr hpr => ?_) (fun e he => ?_)
  · simp at hpr
  · fin_cases he <;> norm_num [TrackerEvent.validQty]

/-! Streak machinery (claim C6). -/

/-- The three streak-related fields of `updateStatsCore` after a winning close. -/
theorem core_streak_win (s : PortfolioStats) (o : TradeOutcome)
    (hw : o.isWinnerTruthy = true) :
    (updateStatsCore s o).current_streak =
      (if 0 ≤ s.current_streak then max 1 (s.current_streak + 1) else 1) ∧
    (updateStatsCore s o).max_winning_streak =
      max s.max_winning_streak
        (if 0 ≤ s.current_streak then max 1 (s.current_streak + 1) else 1) ∧
    (updateStatsCore s o).max_losing_streak = s.max_losing_streak := by
  unfold updateStatsCore
  cases hp : o.realized_pnl <;> cases ht : o.exit_timestamp <;> simp [hw]

/-- The three streak-related fields of `updateStatsCore` after a losing close. -/
theorem core_streak_loss (s : PortfolioStats) (o : TradeOutcome)
    (hw : o.isWinnerTruthy = false) :
    (updateStatsCore s o).current_streak =
      (if s.current_streak ≤ 0 then min (-1) (s.current_streak - 1) else -1) ∧
    (updateStatsCore s o).max_losing_streak =
      max s.max_losing_streak
        |if s.current_streak ≤ 0 then min (-1) (s.current_streak - 1) else -1| ∧
    (updateStatsCore s o).max_winning_streak = s.max_winning_streak := by
  unfold updateStatsCore
  cases hp : o.realized_pnl <;> cases ht : o.exit_timestamp <;> simp [hw]

/-- Sanity bounds maintained by the streak update: both maxima are nonnegative
and dominate (the magnitude of) the current streak. -/
def StreakBounds (s : PortfolioStats) : Prop :=
  0 ≤ s.max_winning_streak ∧ s.current_streak ≤ s.max_winning_streak ∧
    0 ≤ s.max_losing_streak ∧ -s.current_streak ≤ s.max_losing_streak

theorem streakBounds_step (s : PortfolioStats) (o : TradeOutcome) (h : StreakBounds s) :
    StreakBounds (updateStatsCore s o) := by
  obtain ⟨h1, h2, h3, h4⟩ := h
  cases hw : o.isWinnerTruthy
  · obtain ⟨e1, e2, e3⟩ := core_streak_loss s o hw
    rcases le_or_lt s.current_streak 0 with hc | hc
    · rw [if_pos hc, min_eq_right (by omega : s.current_streak - 1 ≤ -1)] at e1 e2
      have habs : |s.current_streak - 1| = -(s.current_streak - 1) :=
        abs_of_nonpos (by omega)
      rw [habs] at e2
      exact ⟨e3 ▸ h1, by rw [e3, e1]; omega,
        by rw [e2]; exact le_trans h3 (le_max_left _ _),
        by rw [e2, e1]; exact le_max_right _ _⟩
    · rw [if_neg (by omega : ¬s.current_streak ≤ 0)] at e1 e2
      have habs : |(-1 : ℤ)| = 1 := by decide
      rw [habs] at e2
      exact ⟨e3 ▸ h1, by rw [e3, e1]; omega,
        by rw [e2]; exact le_trans h3 (le_max_left _ _),
        by rw [e2, e1]; exact le_trans (by omega) (le_max_right _ _)⟩
  · obtain ⟨e1, e2, e3⟩ := core_streak_win s o hw
    have hpos : 1 ≤ (updateStatsCore s o).current_streak := by
      rw [e1]
      split <;> omega
    refine ⟨?_, ?_, ?_, ?_⟩
    · rw [e2]
      exact le_trans h1 (le_max_left _ _)
    · rw [e2, e1]
      exact le_max_right _ _
    · rw [e3]
      exact h3
    · rw [e3]
      omega

theorem max_winning_streak_mono (s : PortfolioStats) (o : TradeOutcome) :
    s.max_winning_streak ≤ (updateStatsCore s o).max_winning_streak := by
  cases hw : o.isWinnerTruthy
  · rw [(core_streak_loss s o hw).2.2]
  · rw [(core_streak_win s o hw).2.1]
    exact le_max_left _ _

theorem max_losing_streak_mono (s : PortfolioStats) (o : TradeOutcome) :
    s.max_losing_streak ≤ (updateStatsCore s o).max_losing_streak := by
  cases hw : o.isWinnerTruthy
  · rw [(core_streak_loss s o hw).2.1]
    exact le_max_left _ _
  · rw [(core_streak_win s o hw).2.2]

theorem streakBounds_fold (os : List TradeOutcome) (s : PortfolioStats)
    (h : StreakBounds s) : StreakBounds (os.foldl updateStatsCore s) := by
  induction os generalizing s with
  | nil => exact h
  | cons o rest ih => exact ih _ (streakBounds_step s o h)

theorem max_winning_streak_fold_mono (os : List TradeOutcome) (s : PortfolioStats) :
    s.max_winning_streak ≤ (os.foldl updateStatsCore s).max_winning_streak := by
  induction os generalizing s with
  | nil => exact le_refl _
  | cons o rest ih => exact le_trans (max_winning_streak_mono s o) (ih _)

theorem max_losing_streak_fold_mono (os : List TradeOutcome) (s : PortfolioStats) :
    s.max_losing_streak ≤ (os.foldl updateStatsCore s).max_losing_streak := by
  induction os generalizing s with
  | nil => exact le_refl _
  | cons o rest ih => exact le_trans (max_losing_streak_mono s o) (ih _)

/-- A winning closed outcome for the concrete streak scenario. -/
def c6_win : TradeOutcome :=
  { outcome_id := 0, symbol := "X", coin := "X", entry_price := 1, entry_quantity := 1,
    entry_timestamp := 0, realized_pnl := some 1, status := OutcomeStatus.CLOSED }

/-- A losing closed outcome for the concrete streak scenario. -/
def c6_loss : TradeOutcome :=
  { outcome_id := 1, symbol := "X", coin := "X", entry_price := 1, entry_quantity := 1,
    entry_timestamp := 0, realized_pnl := some (-1), status := OutcomeStatus.CLOSED }

/-- C6: the streak rule of the portfolio-stats update.  A winning close turns a
nonnegative streak `s` into `s + 1` and a negative streak into `+1`, recording
the new value in `max_winning_streak`; a losing close turns a nonpositive
streak `s` into `s - 1` and a positive streak into `−1`, recording its
magnitude in `max_losing_streak`; over any replay from the empty stats, both
maxima dominate every intermediate streak magnitude; and concretely three
winning closes yield streak +3 with max-winning-streak 3 (hence ≥ 3), and a
following losing close resets the streak to −1. -/
theorem C6_streak_rule :
    (∀ (s : PortfolioStats) (o : TradeOutcome), o.isWinnerTruthy = true →
      (updateStatsCore s o).current_streak =
        (if 0 ≤ s.current_streak then s.current_streak + 1 else 1) ∧
      (updateStatsCore s o).max_winning_streak =
        max s.max_winning_streak (updateStatsCore s o).current_streak ∧
      (updateStatsCore s o).max_losing_streak = s.max_losing_streak) ∧
    (∀ (s : PortfolioStats) (o : TradeOutcome), o.isWinnerTruthy = false →
      (updateStatsCore s o).current_streak =
        (if s.current_streak ≤ 0 then s.current_streak - 1 else -1) ∧
      (updateStatsCore s o).max_losing_streak =
        max s.max_losing_streak |(updateStatsCore s o).current_streak| ∧
      (updateStatsCore s o).max_winning_streak = s.max_winning_streak) ∧
    (∀ (os : List TradeOutcome) (n : ℕ),
      ((os.take n).foldl updateStatsCore {}).current_streak ≤
        (os.foldl updateStatsCore {}).max_winning_streak ∧
      -((os.take n).foldl updateStatsCore {}).current_streak ≤
        (os.foldl updateStatsCore {}).max_losing_streak) ∧
    (([c6_win, c6_win, c6_win].foldl updateStatsCore {}).current_streak = 3 ∧
      ([c6_win, c6_win, c6_win].foldl updateStatsCore {}).max_winning_streak = 3 ∧
      ([c6_win, c6_win, c6_win, c6_loss].foldl updateStatsCore {}).current_streak = -1) := by
  refine ⟨?_, ?_, ?_, ?_⟩
  · intro s o hw
    obtain ⟨e1, e2, e3⟩ := core_streak_win s o hw
    have hmax : (if 0 ≤ s.current_streak then max 1 (s.current_streak + 1) else 1) =
        (if 0 ≤ s.current_streak then s.current_streak + 1 else 1) := by
      split <;> omega
    exact ⟨e1.trans hmax, by rw [e2, e1, hmax], e3⟩
  · intro s o hw
    obtain ⟨e1, e2, e3⟩ := core_streak_loss s o hw
    have hmin : (if s.current_streak ≤ 0 then min (-1) (s.current_streak - 1) else -1) =
        (if s.current_streak ≤ 0 then s.current_streak - 1 else -1) := by
      split <;> omega
    exact ⟨e1.trans hmin, by rw [e2, e1], e3⟩
  · intro os n
    have hsplit : os.foldl updateStatsCore ({} : PortfolioStats) =
        (os.drop n).foldl updateStatsCore ((os.take n).foldl updateStatsCore {}) := by
      rw [← List.foldl_append, List.take_append_drop]
    have hb : StreakBounds ((os.take n).foldl updateStatsCore {}) :=
      streakBounds_fold _ _ ⟨le_refl 0, le_refl 0, le_refl 0, le_refl 0⟩
    constructor
    · calc ((os.take n).foldl updateStatsCore {}).current_streak
          ≤ ((os.take n).foldl updateStatsCore {}).max_winning_streak := hb.2.1
        _ ≤ (os.foldl updateStatsCore {}).max_winning_streak := by
            rw [hsplit]
            exact max_winning_streak_fold_mono _ _
    · calc -((os.take n).foldl updateStatsCore {}).current_streak
          ≤ ((os.take n).foldl updateStatsCore {}).max_losing_streak := hb.2.2.2
        _ ≤ (os.foldl updateStatsCore {}).max_losing_streak := by
            rw [hsplit]
            exact max_losing_streak_fold_mono _ _
  · norm_num [c6_win, c6_loss, updateStatsCore, TradeOutcome.isWinnerTruthy,
      TradeOutcome.is_winner]

/-- Closed instance of `C6_streak_rule`: one winning close from the empty stats
sets the streak to 1, and the prefix-domination bound at the three-win replay. -/
theorem C6_streak_rule_witness :
    (updateStatsCore {} c6_win).current_streak = (if (0:ℤ) ≤ 0 then 0 + 1 else 1) ∧
    (([c6_win, c6_win, c6_win].take 2).foldl updateStatsCore {}).current_streak ≤
      ([c6_win, c6_win, c6_win].foldl updateStatsCore {}).max_winning_streak := by
  constructor
  · exact (C6_streak_rule.1 {} c6_win (by decide)).1
  · exact (C6_streak_rule.2.2.1 [c6_win, c6_win, c6_win] 2).1


/-! FIFO-matching machinery (claim C1). -/

/-- The FIFO consumption discipline of the exit loop, stated as a relation
between the quantity left to exit, the (FIFO-ordered) open entries and the
touched entries: matching stops once the quantity is exhausted, and each
touched entry is the head open entry exited for exactly
`min(remaining, left)` — never more than its remaining quantity. -/
def ConsumesFIFO (price ts : ℚ) : ℚ → List TradeOutcome → List TradeOutcome → Prop
  | _, _, [] => True
  | left, e :: es, t :: rest =>
      0 < left ∧
      t = e.record_exit price (min e.remaining_quantity left) ts ∧
      min e.remaining_quantity left ≤ e.remaining_quantity ∧
      ConsumesFIFO price ts (left - min e.remaining_quantity left) es rest
  | _, [], _ :: _ => False

theorem exitLoop_consumesFIFO (price ts : ℚ) (opens : List TradeOutcome) :
    ∀ (left : ℚ) (perfs : List (String × PositionPerformance)) (stats : PortfolioStats),
      ConsumesFIFO price ts left opens (exitLoop price ts opens left perfs stats).1 := by
  induction opens with
  | nil =>
    intro left perfs stats
    simp [exitLoop, ConsumesFIFO]
  | cons e es ih =>
    intro left perfs stats
    rw [exitLoop]
    by_cases hl : left ≤ 0
    · rw [if_pos hl]
      simp [ConsumesFIFO]
    · rw [if_neg hl]
      exact ⟨not_le.mp hl, rfl, min_le_left _ _, ih _ _ _⟩

theorem exitLoop_total (price ts : ℚ) (opens : List TradeOutcome) :
    ∀ (left : ℚ) (perfs : List (String × PositionPerformance)) (stats : PortfolioStats),
      0 ≤ left → (∀ e ∈ opens, 0 ≤ e.remaining_quantity) →
      ((exitLoop price ts opens left perfs stats).1.map (fun t => t.exit_quantity.getD 0)).sum
        = min left ((opens.map TradeOutcome.remaining_quantity).sum) := by
  induction opens with
  | nil =>
    intro left perfs stats h0 _
    simp [exitLoop, min_eq_right h0]
  | cons e es ih =>
    intro left perfs stats h0 hrem
    have hS : 0 ≤ ((es.map TradeOutcome.remaining_quantity).sum) := by
      apply List.sum_nonneg
      intro x hx
      obtain ⟨o, ho, rfl⟩ := List.mem_map.mp hx
      exact hrem o (List.mem_cons_of_mem _ ho)
    have he : 0 ≤ e.remaining_quantity := hrem e (List.mem_cons_self _ _)
    rw [exitLoop]
    by_cases hl : left ≤ 0
    · have hz : left = 0 := le_antisymm hl h0
      subst hz
      rw [if_pos le_rfl]
      simp only [List.map_nil, List.sum_nil, List.map_cons, List.sum_cons]
      rw [min_eq_left (by linarith)]
    · rw [if_neg hl]
      simp only [List.map_cons, List.sum_cons]
      have hexq : (e.record_exit price (min e.remaining_quantity left) ts).exit_quantity
          = some (min e.remaining_quantity left) := rfl
      rw [hexq]
      simp only [Option.getD_some]
      rw [ih (left - min e.remaining_quantity left) _ _
        (by simp [sub_nonneg])
        (fun o ho => hrem o (List.mem_cons_of_mem _ ho))]
      rcases le_total e.remaining_quantity left with hc | hc
      · rw [min_eq_left hc]
        rcases le_total (left - e.remaining_quantity)
            ((es.map TradeOutcome.remaining_quantity).sum) with hd | hd
        · rw [min_eq_left hd, min_eq_left (by linarith)]
          ring
        · rw [min_eq_right hd, min_eq_right (by linarith)]
      · rw [min_eq_right hc]
        have hz : left - left = 0 := by ring
        rw [hz, min_eq_left hS, min_eq_left (by linarith)]
        ring

/-- Scenario for the FIFO property: entry E1 (quantity 1, price 10, earlier
timestamp) and entry E2 (quantity 1, price 20, later timestamp). -/
def c1_state2 : AdapterState :=
  ((({} : AdapterState).record_entry "ABCUSDT" "ABC" 10 1 0).1.record_entry
    "ABCUSDT" "ABC" 20 1 1).1

/-- The FIFO-scenario sell: quantity 1 at price `p`. -/
def c1_exit (p : ℚ) : AdapterState × List TradeOutcome :=
  c1_state2.record_exit "ABCUSDT" p 1 2

/-- A single open lot with remaining quantity 2, used to instantiate the
quantitative part of the FIFO claim. -/
def c1_wlot : TradeOutcome :=
  { outcome_id := 7, symbol := "AUSDT", coin := "A", entry_price := 2, entry_quantity := 2,
    entry_timestamp := 0, remaining_quantity := 2 }

/-- C1: `record_exit` matches sells FIFO.  The open entries it matches against
are sorted by entry timestamp ascending (and are exactly the OPEN/PARTIAL
entries of the asset); the matching loop consumes exactly
`min(lot.remaining, quantity_left)` from each lot in that order — never more
than a lot's remaining quantity — stopping when the quantity is exhausted;
the total consumed quantity is `min(requested, total remaining)` (lots can run
out); and concretely, after E1 (qty 1, price 10) then E2 (qty 1, price 20), a
sell of qty 1 at any price `p` fully closes E1, leaves E2 untouched, and
realizes P&L `(p − 10) × 1` from E1's entry price only. -/
theorem C1_fifo_matching :
    (∀ (outcomes : List TradeOutcome) (s : String),
      (get_open_entries outcomes (some s)).Sorted entryLe ∧
      List.Perm (get_open_entries outcomes (some s))
        (outcomes.filter
          (fun o => o.status.isOpenOrPartial && strUpper o.coin == symbolToCoin s))) ∧
    (∀ (price ts left : ℚ) (opens : List TradeOutcome)
        (perfs : List (String × PositionPerformance)) (stats : PortfolioStats),
      ConsumesFIFO price ts left opens (exitLoop price ts opens left perfs stats).1) ∧
    (∀ (price ts left : ℚ) (opens : List TradeOutcome)
        (perfs : List (String × PositionPerformance)) (stats : PortfolioStats),
      0 ≤ left → (∀ e ∈ opens, 0 ≤ e.remaining_quantity) →
      ((exitLoop price ts opens left perfs stats).1.map
        (fun t => t.exit_quantity.getD 0)).sum
        = min left ((opens.map TradeOutcome.remaining_quantity).sum)) ∧
    (∀ p : ℚ,
      (c1_exit p).2.map TradeOutcome.outcome_id = [0] ∧
      (c1_exit p).2.map TradeOutcome.status = [OutcomeStatus.CLOSED] ∧
      (c1_exit p).2.map TradeOutcome.remaining_quantity = [0] ∧
      (c1_exit p).2.map TradeOutcome.realized_pnl = [some ((p - 10) * 1)] ∧
      (c1_exit p).1.outcomes.length = 2 ∧
      (c1_exit p).1.outcomes.drop 1 = c1_state2.outcomes.drop 1) := by
  refine ⟨?_, ?_, ?_, ?_⟩
  · intro outcomes s
    exact ⟨List.sorted_insertionSort entryLe _, List.perm_insertionSort entryLe _⟩
  · intro price ts left opens perfs stats
    exact exitLoop_consumesFIFO price ts opens left perfs stats
  · intro price ts left opens perfs stats h0 hrem
    exact exitLoop_total price ts opens left perfs stats h0 hrem
  · intro p
    refine ⟨?_, ?_, ?_, ?_, ?_, ?_⟩ <;>
      norm_num [c1_exit, c1_state2, AdapterState.record_entry, AdapterState.record_exit,
        writeBackTouched, List.find?, get_open_entries, exitLoop, TradeOutcome.record_exit, symbolToCoin, strUpper,
        replaceUSDT, OutcomeStatus.isOpenOrPartial, List.filter, List.insertionSort,
        List.orderedInsert, onLotClosedStep, updatePosPerf, updatePortfolioStats,
        updateStatsCore, assocFind, assocSet, PositionPerformance.update_from_outcome,
        TradeOutcome.isWinnerTruthy, TradeOutcome.is_winner, entryLe,
        show ((0 : Nat) == 1) = false from rfl] <;>
      ring

/-- Closed instance of `C1_fifo_matching`: a sell of quantity 1 against a
single open lot with remaining quantity 2 consumes exactly min(1, 2) = 1. -/
theorem C1_fifo_matching_witness :
    ((exitLoop 5 3 [c1_wlot] 1 [] {}).1.map (fun t => t.exit_quantity.getD 0)).sum
      = min 1 (([c1_wlot].map TradeOutcome.remaining_quantity).sum) :=
  C1_fifo_matching.2.2.1 5 3 1 [c1_wlot] [] {} (by norm_num)
    (fun e he => by
      rw [List.mem_singleton.mp he]
      norm_num [c1_wlot])

/-! Closed-transition aggregation machinery (claim C8). -/

theorem exitLoop_agg (price ts : ℚ) (opens : List TradeOutcome) :
    ∀ (left : ℚ) (perfs : List (String × PositionPerformance)) (stats : PortfolioStats),
      (exitLoop price ts opens left perfs stats).2 =
        ((exitLoop price ts opens left perfs stats).1.filter
          (fun t => t.status == OutcomeStatus.CLOSED)).foldl onLotClosedStep (perfs, stats) := by
  induction opens with
  | nil =>
    intro l p s
    simp [exitLoop]
  | cons e es ih =>
    intro l p s
    rw [exitLoop]
    by_cases hl : l ≤ 0
    · rw [if_pos hl]
      simp
    · rw [if_neg hl]
      by_cases hc : (e.record_exit price (min e.remaining_quantity l) ts).status
          = OutcomeStatus.CLOSED
      · simp only [if_pos hc, List.filter_cons, hc, beq_self_eq_true, if_true, List.foldl_cons]
        exact ih _ _ _
      · simp only [if_neg hc, List.filter_cons]
        rw [if_neg (by simpa using hc)]
        exact ih _ _ _

theorem get_open_entries_not_closed (outcomes : List TradeOutcome) (s : Option String) :
    ∀ o ∈ get_open_entries outcomes s, o.status ≠ OutcomeStatus.CLOSED := by
  intro o ho
  rw [get_open_entries.eq_def] at ho
  have ho' := List.mem_insertionSort entryLe |>.mp ho
  have hopen : o.status.isOpenOrPartial = true := by
    cases s with
    | none => simpa using List.of_mem_filter ho'
    | some s' =>
      have hf := List.of_mem_filter ho'
      simp at hf
      exact hf.1
  cases h : o.status <;> simp [h, OutcomeStatus.isOpenOrPartial] at hopen ⊢

theorem record_exit_agg (st : AdapterState) (symbol : String) (price qty ts : ℚ) :
    ((st.record_exit symbol price qty ts).1.position_perfs,
      (st.record_exit symbol price qty ts).1.portfolio_stats) =
      ((st.record_exit symbol price qty ts).2.filter
        (fun t => t.status == OutcomeStatus.CLOSED)).foldl onLotClosedStep
        (st.position_perfs, st.portfolio_stats) := by
  rw [AdapterState.record_exit]
  by_cases he : (get_open_entries st.outcomes (some symbol)).isEmpty
  · rw [if_pos he]
    simp
  · rw [if_neg he]
    simp only
    rw [Prod.mk.eta]
    exact exitLoop_agg price ts _ qty _ _

/-- Scenario for the PARTIAL-exit frame property: one entry of quantity 3 at
price 10, then an exit of quantity 1 (leaving the lot PARTIAL). -/
def c8_state1 : AdapterState :=
  (({} : AdapterState).record_entry "QQQUSDT" "QQQ" 10 3 0).1

/-- The PARTIAL exit of the C8 scenario. -/
def c8_exit1 : AdapterState × List TradeOutcome :=
  c8_state1.record_exit "QQQUSDT" 15 1 3600

/-- C8: during `record_exit`, the per-asset performance and portfolio stats are
updated by exactly one `onLotClosed` step per touched lot that reaches CLOSED
in that call (the fold characterization below), lots that are already CLOSED
are never matched again (`get_open_entries` yields no CLOSED lot), and an exit
in which no touched lot closes (all left PARTIAL) changes neither aggregate;
concretely, the partial exit of 1 out of 3 units leaves both aggregates at
their initial empty values. -/
theorem C8_aggregates_on_close :
    (∀ (st : AdapterState) (symbol : String) (price qty ts : ℚ),
      ((st.record_exit symbol price qty ts).1.position_perfs,
        (st.record_exit symbol price qty ts).1.portfolio_stats) =
        ((st.record_exit symbol price qty ts).2.filter
          (fun t => t.status == OutcomeStatus.CLOSED)).foldl onLotClosedStep
          (st.position_perfs, st.portfolio_stats)) ∧
    (∀ (outcomes : List TradeOutcome) (s : Option String),
      ∀ o ∈ get_open_entries outcomes s, o.status ≠ OutcomeStatus.CLOSED) ∧
    (∀ (st : AdapterState) (symbol : String) (price qty ts : ℚ),
      (∀ t ∈ (st.record_exit symbol price qty ts).2, t.status ≠ OutcomeStatus.CLOSED) →
      (st.record_exit symbol price qty ts).1.position_perfs = st.position_perfs ∧
      (st.record_exit symbol price qty ts).1.portfolio_stats = st.portfolio_stats) ∧
    (c8_exit1.2.map TradeOutcome.status = [OutcomeStatus.PARTIAL] ∧
      c8_exit1.1.position_perfs = [] ∧
      c8_exit1.1.portfolio_stats = {}) := by
  refine ⟨record_exit_agg, get_open_entries_not_closed, ?_, ?_⟩
  · intro st symbol price qty ts hnone
    have h := record_exit_agg st symbol price qty ts
    rw [List.filter_eq_nil.mpr (fun t ht => by simpa using hnone t ht)] at h
    simpa [Prod.ext_iff] using h
  · refine ⟨?_, ?_, ?_⟩ <;>
      norm_num [c8_exit1, c8_state1, AdapterState.record_entry, AdapterState.record_exit,
        writeBackTouched, List.find?, get_open_entries, exitLoop, TradeOutcome.record_exit, symbolToCoin, strUpper,
        replaceUSDT, OutcomeStatus.isOpenOrPartial, List.filter, List.insertionSort,
        List.orderedInsert, onLotClosedStep, updatePosPerf, updatePortfolioStats,
        updateStatsCore, assocFind, assocSet, PositionPerformance.update_from_outcome] <;>
      decide

/-- Closed instance of `C8_aggregates_on_close`: the concrete PARTIAL exit
(1 of 3 units) leaves both aggregates exactly as they were. -/
theorem C8_aggregates_on_close_witness :
    c8_exit1.1.position_perfs = c8_state1.position_perfs ∧
    c8_exit1.1.portfolio_stats = c8_state1.portfolio_stats := by
  have h := C8_aggregates_on_close.2.2.1 c8_state1 "QQQUSDT" 15 1 3600 ?_
  · exact h
  · intro t ht
    norm_num [c8_exit1, c8_state1, AdapterState.record_entry, AdapterState.record_exit,
      writeBackTouched, List.find?, get_open_entries, exitLoop, TradeOutcome.record_exit, symbolToCoin, strUpper,
      replaceUSDT, OutcomeStatus.isOpenOrPartial, List.filter, List.insertionSort,
      List.orderedInsert, onLotClosedStep] at ht
    rw [ht]
    simp

/-! Rebuild-equivalence machinery (claim C5): the lexicographic order realized
by the stable sort, the ghost closure log, and the adapter invariant. -/

/-- Strict version of `optTsLe`. -/
def optTsLt : Option ℚ → Option ℚ → Prop
  | none, none => False
  | none, some _ => True
  | some _, none => False
  | some a, some b => a < b

/-- Strict lexicographic order on (exit timestamp, entry timestamp). -/
def LexLt (a b : TradeOutcome) : Prop :=
  optTsLt a.exit_timestamp b.exit_timestamp ∨
    (a.exit_timestamp = b.exit_timestamp ∧ a.entry_timestamp < b.entry_timestamp)

theorem optTsLe_lt_or_eq : ∀ {x y : Option ℚ}, optTsLe x y → optTsLt x y ∨ x = y
  | none, none, _ => Or.inr rfl
  | none, some _, _ => Or.inl trivial
  | some _, none, h => h.elim
  | some _, some _, h => (lt_or_eq_of_le h).imp id (fun e => by rw [e])

theorem optTsLt_of_le_of_lt : ∀ {x y z : Option ℚ}, optTsLe x y → optTsLt y z → optTsLt x z
  | none, none, none, _, h2 => h2.elim
  | none, none, some _, _, _ => trivial
  | none, some _, none, _, h2 => h2.elim
  | none, some _, some _, _, _ => trivial
  | some _, none, _, h1, _ => h1.elim
  | some _, some _, none, _, h2 => h2.elim
  | some _, some _, some _, h1, h2 => lt_of_le_of_lt h1 h2

theorem optTsLe_of_lt : ∀ {x y : Option ℚ}, optTsLt x y → optTsLe x y
  | none, none, h => h.elim
  | none, some _, _ => trivial
  | some _, none, h => h.elim
  | some _, some _, h => le_of_lt h

theorem optTsLt_irrefl : ∀ {x : Option ℚ}, optTsLt x x → False
  | none, h => h
  | some _, h => lt_irrefl _ h

theorem optTsLt_asymm : ∀ {x y : Option ℚ}, optTsLt x y → optTsLt y x → False
  | none, none, h, _ => h
  | none, some _, _, h => h
  | some _, none, h, _ => h
  | some _, some _, h1, h2 => lt_asymm h1 h2

theorem optTsLt_of_not_le : ∀ {x y : Option ℚ}, ¬optTsLe x y → optTsLt y x
  | none, _, h => absurd trivial h
  | some _, none, _ => trivial
  | some _, some _, h => lt_of_not_le h

theorem optTsLe_trans : ∀ {x y z : Option ℚ}, optTsLe x y → optTsLe y z → optTsLe x z
  | none, _, _, _, _ => trivial
  | some _, none, _, h1, _ => h1.elim
  | some _, some _, none, _, h2 => h2.elim
  | some _, some _, some _, h1, h2 => le_trans h1 h2

theorem lexLt_asymm {a b : TradeOutcome} (h1 : LexLt a b) (h2 : LexLt b a) : False := by
  rcases h1 with h1 | ⟨he1, hn1⟩ <;> rcases h2 with h2 | ⟨he2, hn2⟩
  · exact optTsLt_asymm h1 h2
  · rw [he2] at h1
    exact optTsLt_irrefl h1
  · rw [he1] at h2
    exact optTsLt_irrefl h2
  · linarith

instance : IsAntisymm TradeOutcome LexLt :=
  ⟨fun _ _ h1 h2 => (lexLt_asymm h1 h2).elim⟩

theorem lexLt_of_exitLe_of_lexLt {a b c : TradeOutcome} (h1 : exitLe a b) (h2 : LexLt b c)
    (hen : a.entry_timestamp < c.entry_timestamp) : LexLt a c := by
  have h1' : optTsLe a.exit_timestamp b.exit_timestamp := h1
  rcases h2 with h2 | ⟨he, _⟩
  · exact Or.inl (optTsLt_of_le_of_lt h1' h2)
  · rw [he] at h1'
    rcases optTsLe_lt_or_eq h1' with h | h
    · exact Or.inl h
    · exact Or.inr ⟨h, hen⟩

theorem orderedInsert_lex (a : TradeOutcome) (l : List TradeOutcome)
    (hl : l.Pairwise LexLt) (ha : ∀ b ∈ l, a.entry_timestamp < b.entry_timestamp) :
    (l.orderedInsert exitLe a).Pairwise LexLt := by
  induction l with
  | nil => simp
  | cons b m ih =>
    rw [List.orderedInsert]
    by_cases hab : exitLe a b
    · rw [if_pos hab]
      have hlexab : LexLt a b := by
        rcases optTsLe_lt_or_eq hab with h | h
        · exact Or.inl h
        · exact Or.inr ⟨h, ha b (List.mem_cons_self _ _)⟩
      refine List.Pairwise.cons ?_ hl
      intro c hc
      rcases List.mem_cons.mp hc with rfl | hc
      · exact hlexab
      · exact lexLt_of_exitLe_of_lexLt hab (List.rel_of_pairwise_cons hl hc)
          (ha c (List.mem_cons_of_mem _ hc))
    · rw [if_neg hab]
      have hba : optTsLt b.exit_timestamp a.exit_timestamp := optTsLt_of_not_le hab
      refine List.Pairwise.cons ?_ (ih hl.of_cons (fun c hc => ha c (List.mem_cons_of_mem _ hc)))
      intro c hc
      rcases (List.mem_orderedInsert exitLe).mp hc with rfl | hc
      · exact Or.inl hba
      · exact List.rel_of_pairwise_cons hl hc

theorem insertionSort_lex (l : List TradeOutcome)
    (h : l.Pairwise (fun a b => a.entry_timestamp < b.entry_timestamp)) :
    (l.insertionSort exitLe).Pairwise LexLt := by
  induction l with
  | nil => simp
  | cons a m ih =>
    rw [List.insertionSort]
    refine orderedInsert_lex a _ (ih h.of_cons) ?_
    intro b hb
    exact List.rel_of_pairwise_cons h ((List.mem_insertionSort exitLe).mp hb)


/-- The pointwise relation between an open lot and its touched version. -/
def TouchRel (price ts : ℚ) (o t : TradeOutcome) : Prop :=
  o.status ≠ OutcomeStatus.CLOSED ∧ ∃ q, t = o.record_exit price q ts

theorem touchRel_id {price ts : ℚ} {o t : TradeOutcome} (h : TouchRel price ts o t) :
    t.outcome_id = o.outcome_id := by
  obtain ⟨-, q, rfl⟩ := h
  rfl

theorem touchRel_entry_ts {price ts : ℚ} {o t : TradeOutcome} (h : TouchRel price ts o t) :
    t.entry_timestamp = o.entry_timestamp := by
  obtain ⟨-, q, rfl⟩ := h
  rfl

theorem touchRel_exit_ts {price ts : ℚ} {o t : TradeOutcome} (h : TouchRel price ts o t) :
    t.exit_timestamp = some ts := by
  obtain ⟨-, q, rfl⟩ := h
  rfl

theorem touchRel_not_closed {price ts : ℚ} {o t : TradeOutcome} (h : TouchRel price ts o t) :
    o.status ≠ OutcomeStatus.CLOSED := h.1

/-- The touched list of the exit loop comes from a sublist of the open entries,
each touched lot being its source lot with one exit recorded at timestamp
`ts`. -/
theorem exitLoop_touched_from (price ts : ℚ) (opens : List TradeOutcome)
    (hopen : ∀ o ∈ opens, o.status ≠ OutcomeStatus.CLOSED) :
    ∀ (left : ℚ) (perfs : List (String × PositionPerformance)) (stats : PortfolioStats),
      ∃ S, S.Sublist opens ∧
        List.Forall₂ (TouchRel price ts) S (exitLoop price ts opens left perfs stats).1 := by
  induction opens with
  | nil =>
    intro left perfs stats
    exact ⟨[], List.Sublist.refl _, by simp [exitLoop]⟩
  | cons e es ih =>
    intro left perfs stats
    rw [exitLoop]
    by_cases hl : left ≤ 0
    · rw [if_pos hl]
      exact ⟨[], List.nil_sublist _, List.Forall₂.nil⟩
    · rw [if_neg hl]
      obtain ⟨S, hsub, hF⟩ := ih (fun o ho => hopen o (List.mem_cons_of_mem _ ho)) _ _ _
      exact ⟨e :: S, hsub.cons₂ e,
        List.Forall₂.cons ⟨hopen e (List.mem_cons_self _ _), _, rfl⟩ hF⟩

theorem forall₂_map_id {price ts : ℚ} :
    ∀ {S T : List TradeOutcome}, List.Forall₂ (TouchRel price ts) S T →
      T.map TradeOutcome.outcome_id = S.map TradeOutcome.outcome_id := by
  intro S T h
  induction h with
  | nil => rfl
  | cons hrel _ ih => simp [ih, touchRel_id hrel]

theorem forall₂_mem_right {price ts : ℚ} :
    ∀ {S T : List TradeOutcome}, List.Forall₂ (TouchRel price ts) S T →
      ∀ t ∈ T, ∃ s ∈ S, TouchRel price ts s t := by
  intro S T h
  induction h with
  | nil => simp
  | cons hrel htail ih =>
    intro t ht
    rcases List.mem_cons.mp ht with rfl | ht
    · exact ⟨_, List.mem_cons_self _ _, hrel⟩
    · obtain ⟨s, hs, hrel2⟩ := ih t ht
      exact ⟨s, List.mem_cons_of_mem _ hs, hrel2⟩

theorem nodup_ids_inj {L : List TradeOutcome}
    (hnd : (L.map TradeOutcome.outcome_id).Nodup) :
    ∀ a ∈ L, ∀ b ∈ L, a.outcome_id = b.outcome_id → a = b := by
  intro a ha b hb hid
  exact List.inj_on_of_nodup_map hnd ha hb hid

/-- A write-back leaves the id and entry timestamp of every outcome of the
list unchanged. -/
theorem writeBack_preserves {price ts : ℚ} {L S T : List TradeOutcome}
    (hnd : (L.map TradeOutcome.outcome_id).Nodup)
    (hS : S.Sublist L)
    (hF : List.Forall₂ (TouchRel price ts) S T) :
    ∀ o ∈ L, (writeBackTouched T o).outcome_id = o.outcome_id ∧
      (writeBackTouched T o).entry_timestamp = o.entry_timestamp := by
  intro o ho
  rw [writeBackTouched.eq_def]
  cases hfind : T.find? (fun t => t.outcome_id == o.outcome_id) with
  | none => exact ⟨rfl, rfl⟩
  | some t =>
    have htT : t ∈ T := List.mem_of_find?_eq_some hfind
    have hid : t.outcome_id = o.outcome_id := by
      have := List.find?_some hfind
      simpa using this
    obtain ⟨s, hsS, hrel⟩ := forall₂_mem_right hF t htT
    have hsL : s ∈ L := hS.subset hsS
    have hso : s = o := nodup_ids_inj hnd s hsL o ho ((touchRel_id hrel).symm.trans hid)
    subst hso
    exact ⟨hid, (touchRel_entry_ts hrel).trans rfl⟩

/-- Write-back of touched lots interleaves the newly CLOSED lots into the
outcome list: up to permutation, the CLOSED lots afterwards are the previously
CLOSED lots plus the touched lots that closed. -/
theorem writeBack_filter_perm {price ts : ℚ} {L S : List TradeOutcome} (hS : S.Sublist L) :
    ∀ {T : List TradeOutcome}, (L.map TradeOutcome.outcome_id).Nodup →
      List.Forall₂ (TouchRel price ts) S T →
      List.Perm
        ((L.map (writeBackTouched T)).filter (fun t => t.status == OutcomeStatus.CLOSED))
        ((L.filter (fun t => t.status == OutcomeStatus.CLOSED)) ++
          (T.filter (fun t => t.status == OutcomeStatus.CLOSED))) := by
  induction hS with
  | slnil =>
    intro T _ hF
    cases hF
    simp
  | @cons S' L₂ a hs ih =>
    intro T hnd hF
    rw [List.map_cons] at hnd
    obtain ⟨ha, hnd₂⟩ := List.nodup_cons.mp hnd
    have hfind : T.find? (fun t => t.outcome_id == a.outcome_id) = none := by
      rw [List.find?_eq_none]
      intro t htT
      obtain ⟨s, hsS, hrel⟩ := forall₂_mem_right hF t htT
      have hmem : s.outcome_id ∈ L₂.map TradeOutcome.outcome_id :=
        List.mem_map_of_mem _ (hs.subset hsS)
      simp only [beq_iff_eq]
      intro heq
      rw [← heq, touchRel_id hrel] at ha
      exact ha hmem
    have hwa : writeBackTouched T a = a := by
      rw [writeBackTouched.eq_def, hfind]
    rw [List.map_cons, hwa, List.filter_cons, List.filter_cons]
    by_cases hc : (a.status == OutcomeStatus.CLOSED) = true
    · rw [if_pos hc, if_pos hc]
      exact (ih hnd₂ hF).cons a
    · rw [if_neg hc, if_neg hc]
      exact ih hnd₂ hF
  | @cons₂ S' L₂ a hs ih =>
    intro T hnd hF
    cases hF with
    | cons hrel hF₁ =>
      rename_i t T₁
      rw [List.map_cons] at hnd
      obtain ⟨ha, hnd₂⟩ := List.nodup_cons.mp hnd
      have hwa : writeBackTouched (t :: T₁) a = t := by
        rw [writeBackTouched.eq_def]
        simp [List.find?_cons, touchRel_id hrel]
      have hmapeq : L₂.map (writeBackTouched (t :: T₁)) = L₂.map (writeBackTouched T₁) := by
        apply List.map_congr_left
        intro x hx
        rw [writeBackTouched.eq_def, writeBackTouched.eq_def, List.find?_cons]
        have : (t.outcome_id == x.outcome_id) = false := by
          simp only [beq_eq_false_iff_ne, ne_eq]
          intro heq
          rw [touchRel_id hrel] at heq
          rw [heq] at ha
          exact ha (List.mem_map_of_mem _ hx)
        rw [this]
      have hanotc : (a.status == OutcomeStatus.CLOSED) = false := by
        simpa using touchRel_not_closed hrel
      rw [List.map_cons, hwa, hmapeq, List.filter_cons, List.filter_cons, List.filter_cons,
        hanotc]
      simp only [if_false, Bool.false_eq_true]
      by_cases hc : (t.status == OutcomeStatus.CLOSED) = true
      · rw [if_pos hc, if_pos hc]
        exact ((ih hnd₂ hF₁).cons t).trans List.perm_middle.symm
      · rw [if_neg hc, if_neg hc]
        exact ih hnd₂ hF₁

/-- Transport of entry-timestamp ordering along the touch relation. -/
theorem pairwise_entry_of_forall₂ {price ts : ℚ} :
    ∀ {S T : List TradeOutcome}, List.Forall₂ (TouchRel price ts) S T →
      S.Pairwise (fun a b => a.entry_timestamp < b.entry_timestamp) →
      T.Pairwise (fun a b => a.entry_timestamp < b.entry_timestamp) := by
  intro S T h
  induction h with
  | nil => intro _; exact List.Pairwise.nil
  | cons hrel htail ih =>
    intro hp
    refine List.Pairwise.cons ?_ (ih hp.of_cons)
    intro t' ht'
    obtain ⟨s', hs', hrel2⟩ := forall₂_mem_right htail t' ht'
    rw [touchRel_entry_ts hrel, touchRel_entry_ts hrel2]
    exact List.rel_of_pairwise_cons hp hs'

/-- Every touched lot of the exit loop carries `exit_timestamp = some ts`. -/
theorem forall₂_exit_ts {price ts : ℚ} {S T : List TradeOutcome}
    (h : List.Forall₂ (TouchRel price ts) S T) :
    ∀ t ∈ T, t.exit_timestamp = some ts := by
  intro t ht
  obtain ⟨s, -, hrel⟩ := forall₂_mem_right h t ht
  exact touchRel_exit_ts hrel

/-- The invariant tying an adapter state to its (ghost) closure log under the
monotone-clock discipline: `bound` dominates every timestamp seen so far. -/
structure AdapterInv (st : AdapterState) (log : List TradeOutcome) (bound : ℚ) : Prop where
  entry_sorted : st.outcomes.Pairwise (fun a b => a.entry_timestamp < b.entry_timestamp)
  entry_bound : ∀ o ∈ st.outcomes, o.entry_timestamp ≤ bound
  ids_nodup : (st.outcomes.map TradeOutcome.outcome_id).Nodup
  ids_lt : ∀ o ∈ st.outcomes, o.outcome_id < st.next_id
  closed_perm :
    List.Perm (st.outcomes.filter (fun o => o.status == OutcomeStatus.CLOSED)) log
  log_lex : log.Pairwise LexLt
  log_exit_le : ∀ o ∈ log, optTsLe o.exit_timestamp (some bound)
  agg : (st.position_perfs, st.portfolio_stats) = log.foldl onLotClosedStep ([], {})

theorem AdapterInv.mono {st : AdapterState} {log : List TradeOutcome} {b b' : ℚ}
    (inv : AdapterInv st log b) (h : b ≤ b') : AdapterInv st log b' where
  entry_sorted := inv.entry_sorted
  entry_bound := fun o ho => le_trans (inv.entry_bound o ho) h
  ids_nodup := inv.ids_nodup
  ids_lt := inv.ids_lt
  closed_perm := inv.closed_perm
  log_lex := inv.log_lex
  log_exit_le := fun o ho => optTsLe_trans (inv.log_exit_le o ho) h
  agg := inv.agg

theorem inv_record_entry {st : AdapterState} {log : List TradeOutcome} {b : ℚ}
    (inv : AdapterInv st log b) (symbol coin : String) (price qty ts : ℚ) (hts : b < ts) :
    AdapterInv (st.record_entry symbol coin price qty ts).1 log ts := by
  simp only [AdapterState.record_entry]
  refine ⟨?_, ?_, ?_, ?_, ?_, inv.log_lex, ?_, inv.agg⟩
  · refine List.pairwise_append.mpr ⟨inv.entry_sorted, by simp, ?_⟩
    intro a ha o ho
    rw [List.mem_singleton.mp ho]
    exact lt_of_le_of_lt (inv.entry_bound a ha) hts
  · intro o ho
    rcases List.mem_append.mp ho with h | h
    · exact le_trans (inv.entry_bound o h) (le_of_lt hts)
    · rw [List.mem_singleton.mp h]
  · rw [List.map_append]
    refine List.Nodup.append inv.ids_nodup (by simp) ?_
    intro x hx hx'
    simp only [List.map_cons, List.map_nil, List.mem_singleton] at hx'
    obtain ⟨o, ho, rfl⟩ := List.mem_map.mp hx
    exact absurd hx' (Nat.ne_of_lt (inv.ids_lt o ho))
  · intro o ho
    rcases List.mem_append.mp ho with h | h
    · exact Nat.lt_trans (inv.ids_lt o h) (Nat.lt_succ_self _)
    · rw [List.mem_singleton.mp h]
      exact Nat.lt_succ_self _
  · rw [List.filter_append]
    simp only [List.filter_cons, List.filter_nil]
    rw [if_neg (by simp)]
    rw [List.append_nil]
    exact inv.closed_perm
  · intro o ho
    exact optTsLe_trans (inv.log_exit_le o ho) (le_of_lt hts)

theorem inv_record_exit {st : AdapterState} {log : List TradeOutcome} {b : ℚ}
    (inv : AdapterInv st log b) (symbol : String) (price qty ts : ℚ) (hts : b < ts) :
    AdapterInv (st.record_exit symbol price qty ts).1
      (log ++ ((st.record_exit symbol price qty ts).2.filter
        (fun t => t.status == OutcomeStatus.CLOSED))) ts := by
  rw [AdapterState.record_exit]
  by_cases hempty : (get_open_entries st.outcomes (some symbol)).isEmpty
  · rw [if_pos hempty]
    simp only [List.filter_nil, List.append_nil]
    exact inv.mono (le_of_lt hts)
  · rw [if_neg hempty]
    obtain ⟨S, hSsub, hF⟩ := exitLoop_touched_from price ts
      (get_open_entries st.outcomes (some symbol))
      (get_open_entries_not_closed st.outcomes (some symbol)) qty
      st.position_perfs st.portfolio_stats
    have hopens_sub : (get_open_entries st.outcomes (some symbol)).Sublist st.outcomes := by
      have hsorted : (st.outcomes.filter (fun o =>
          o.status.isOpenOrPartial && strUpper o.coin == symbolToCoin symbol)).Sorted entryLe := by
        refine List.Pairwise.imp (fun h => le_of_lt h) ?_
        exact inv.entry_sorted.filter _
      rw [get_open_entries.eq_def]
      simp only
      rw [hsorted.insertionSort_eq]
      exact List.filter_sublist _
    have hSL : S.Sublist st.outcomes := hSsub.trans hopens_sub
    have hpres := writeBack_preserves inv.ids_nodup hSL hF
    set touched := (exitLoop price ts (get_open_entries st.outcomes (some symbol)) qty
      st.position_perfs st.portfolio_stats).1 with htouched
    refine ⟨?_, ?_, ?_, ?_, ?_, ?_, ?_, ?_⟩
    · rw [List.pairwise_map]
      refine inv.entry_sorted.imp_of_mem ?_
      intro a c ha hc h
      rw [(hpres a ha).2, (hpres c hc).2]
      exact h
    · intro o' ho'
      obtain ⟨o, ho, rfl⟩ := List.mem_map.mp ho'
      rw [(hpres o ho).2]
      exact le_trans (inv.entry_bound o ho) (le_of_lt hts)
    · rw [List.map_map]
      have hmap : st.outcomes.map (TradeOutcome.outcome_id ∘ writeBackTouched touched)
          = st.outcomes.map TradeOutcome.outcome_id :=
        List.map_congr_left (fun o ho => (hpres o ho).1)
      rw [hmap]
      exact inv.ids_nodup
    · intro o' ho'
      obtain ⟨o, ho, rfl⟩ := List.mem_map.mp ho'
      show (writeBackTouched touched o).outcome_id < st.next_id
      rw [(hpres o ho).1]
      exact inv.ids_lt o ho
    · exact (writeBack_filter_perm hSL inv.ids_nodup hF).trans
        (List.Perm.append_right _ inv.closed_perm)
    · refine List.pairwise_append.mpr ⟨inv.log_lex, ?_, ?_⟩
      · have htpw : touched.Pairwise (fun a c => a.entry_timestamp < c.entry_timestamp) :=
          pairwise_entry_of_forall₂ hF (List.Pairwise.sublist hSL inv.entry_sorted)
        refine (htpw.filter _).imp_of_mem ?_
        intro a c ha hc h
        have ha' : a.exit_timestamp = some ts :=
          forall₂_exit_ts hF a (List.mem_of_mem_filter ha)
        have hc' : c.exit_timestamp = some ts :=
          forall₂_exit_ts hF c (List.mem_of_mem_filter hc)
        exact Or.inr ⟨ha'.trans hc'.symm, h⟩
      · intro o ho t ht
        refine Or.inl ?_
        have : t.exit_timestamp = some ts :=
          forall₂_exit_ts hF t (List.mem_of_mem_filter ht)
        rw [this]
        exact optTsLt_of_le_of_lt (inv.log_exit_le o ho) hts
    · intro o ho
      rcases List.mem_append.mp ho with h | h
      · exact optTsLe_trans (inv.log_exit_le o h) (le_of_lt hts)
      · rw [forall₂_exit_ts hF o (List.mem_of_mem_filter h)]
        exact le_refl ts
    · show ((exitLoop price ts _ qty _ _).2.1, (exitLoop price ts _ qty _ _).2.2) = _
      rw [Prod.mk.eta, List.foldl_append, ← inv.agg]
      exact exitLoop_agg price ts _ qty _ _

theorem inv_run :
    ∀ (events : List Event) (st : AdapterState) (log : List TradeOutcome) (b : ℚ),
      AdapterInv st log b → List.Chain (fun x y => x < y) b (events.map Event.ts) →
      ∃ log' b', AdapterInv (events.foldl applyEvent st) log' b' := by
  intro events
  induction events with
  | nil =>
    intro st log b inv _
    exact ⟨log, b, inv⟩
  | cons e rest ih =>
    intro st log b inv hchain
    rw [List.map_cons] at hchain
    obtain ⟨hbe, hchain2⟩ := List.chain_cons.mp hchain
    rw [List.foldl_cons]
    cases e with
    | entry symbol coin price qty ts =>
      exact ih _ _ _ (inv_record_entry inv symbol coin price qty ts hbe) hchain2
    | exitEv symbol price qty ts =>
      exact ih _ _ _ (inv_record_exit inv symbol price qty ts hbe) hchain2

theorem recalcFold_components (l : List TradeOutcome) :
    ∀ (a0 : List String) (p0 : List (String × PositionPerformance)) (s0 : PortfolioStats),
      l.foldl (fun acc (o : TradeOutcome) =>
          (setInsert acc.1 (strUpper o.coin), updatePosPerf acc.2.1 o,
            updateStatsCore acc.2.2 o)) (a0, p0, s0)
        = (l.foldl (fun ks o => setInsert ks (strUpper o.coin)) a0,
            l.foldl updatePosPerf p0, l.foldl updateStatsCore s0) := by
  induction l with
  | nil => intro a0 p0 s0; rfl
  | cons o t ih =>
    intro a0 p0 s0
    rw [List.foldl_cons, List.foldl_cons, List.foldl_cons, List.foldl_cons]
    exact ih _ _ _

theorem assocSet_keys {α : Type} (k : String) (v : α) :
    ∀ l : List (String × α), (assocSet k v l).map Prod.fst = setInsert (l.map Prod.fst) k := by
  intro l
  induction l with
  | nil => simp [assocSet, setInsert]
  | cons hd t ih =>
    rcases hd with ⟨k2, v2⟩
    by_cases hk : k2 = k
    · subst hk
      rw [assocSet, if_pos rfl]
      simp [setInsert]
    · rw [assocSet, if_neg hk]
      simp only [List.map_cons]
      rw [ih]
      by_cases hmem : k ∈ t.map Prod.fst
      · rw [setInsert, if_pos hmem, setInsert,
          if_pos (List.mem_cons_of_mem _ hmem)]
      · rw [setInsert, if_neg hmem, setInsert,
          if_neg (by simp [hmem, Ne.symm hk])]
        simp

theorem updatePosPerf_keys (perfs : List (String × PositionPerformance)) (o : TradeOutcome) :
    (updatePosPerf perfs o).map Prod.fst = setInsert (perfs.map Prod.fst) (strUpper o.coin) := by
  rw [updatePosPerf]
  exact assocSet_keys _ _ _

theorem foldl_updatePosPerf_keys (l : List TradeOutcome) :
    ∀ p0 : List (String × PositionPerformance),
      (l.foldl updatePosPerf p0).map Prod.fst
        = l.foldl (fun ks o => setInsert ks (strUpper o.coin)) (p0.map Prod.fst) := by
  induction l with
  | nil => intro p0; rfl
  | cons o t ih =>
    intro p0
    rw [List.foldl_cons, List.foldl_cons, ih, updatePosPerf_keys]

theorem onLotClosedStep_fst (l : List TradeOutcome) :
    ∀ (p0 : List (String × PositionPerformance)) (s0 : PortfolioStats),
      (l.foldl onLotClosedStep (p0, s0)).1 = l.foldl updatePosPerf p0 := by
  induction l with
  | nil => intro p0 s0; rfl
  | cons o t ih =>
    intro p0 s0
    rw [List.foldl_cons, List.foldl_cons]
    exact ih _ _

theorem statsCore_unique (s : PortfolioStats) (o : TradeOutcome) (u : Nat) :
    updateStatsCore { s with unique_coins_traded := u } o
      = { updateStatsCore s o with unique_coins_traded := u } := by
  cases hw : o.isWinnerTruthy <;> cases hp : o.realized_pnl <;> cases ht : o.exit_timestamp <;>
    simp [updateStatsCore, hw, hp, ht]

theorem foldl_statsCore_unique (l : List TradeOutcome) :
    ∀ (s0 : PortfolioStats) (u : Nat),
      l.foldl updateStatsCore { s0 with unique_coins_traded := u }
        = { l.foldl updateStatsCore s0 with unique_coins_traded := u } := by
  induction l with
  | nil => intro s0 u; rfl
  | cons o t ih =>
    intro s0 u
    rw [List.foldl_cons, List.foldl_cons, statsCore_unique]
    exact ih _ _

theorem onLotClosedStep_snd (l : List TradeOutcome) :
    ∀ (p0 : List (String × PositionPerformance)) (s0 : PortfolioStats),
      (l.foldl onLotClosedStep (p0, s0)).2 =
        if l.isEmpty then s0
        else { l.foldl updateStatsCore s0 with
               unique_coins_traded := (l.foldl updatePosPerf p0).length } := by
  induction l with
  | nil => intro p0 s0; rfl
  | cons o t ih =>
    intro p0 s0
    rw [List.foldl_cons]
    rw [show onLotClosedStep (p0, s0) o
        = (updatePosPerf p0 o,
            { updateStatsCore s0 o with
              unique_coins_traded := (updatePosPerf p0 o).length }) from rfl]
    rw [ih]
    cases t with
    | nil => simp
    | cons o2 t2 =>
      simp only [List.isEmpty_cons, Bool.false_eq_true, if_false]
      rw [foldl_statsCore_unique]
      simp only [List.foldl_cons]

theorem recalc_eq {st : AdapterState} {log : List TradeOutcome} {b : ℚ}
    (inv : AdapterInv st log b) :
    st.recalculate_stats.position_perfs = st.position_perfs ∧
    st.recalculate_stats.portfolio_stats = st.portfolio_stats := by
  have hEq : (st.outcomes.filter
      (fun o => o.status == OutcomeStatus.CLOSED)).insertionSort exitLe = log :=
    List.eq_of_perm_of_sorted
      ((List.perm_insertionSort exitLe _).trans inv.closed_perm)
      (insertionSort_lex _ (inv.entry_sorted.filter _))
      inv.log_lex
  have hfst : st.position_perfs = log.foldl updatePosPerf [] := by
    have h := congrArg Prod.fst inv.agg
    rwa [onLotClosedStep_fst] at h
  have hsnd : st.portfolio_stats = (log.foldl onLotClosedStep ([], {})).2 :=
    congrArg Prod.snd inv.agg
  rw [AdapterState.recalculate_stats]
  simp only [hEq, recalcFold_components]
  constructor
  · exact hfst.symm
  · rw [onLotClosedStep_snd] at hsnd
    cases hlog : log with
    | nil =>
      rw [hlog] at hsnd
      simp at hsnd
      rw [hsnd]
      rfl
    | cons o t =>
      rw [hlog] at hsnd
      simp only [List.isEmpty, Bool.false_eq_true, if_false] at hsnd
      rw [hsnd]
      have h := foldl_updatePosPerf_keys (o :: t) []
      simp only [List.map_nil] at h
      rw [← h, List.length_map]

theorem inv_init (b : ℚ) : AdapterInv {} [] b := by
  refine ⟨?_, ?_, ?_, ?_, ?_, ?_, ?_, rfl⟩ <;> simp

/-- C5: rebuild equivalence.  For every event history with strictly increasing
timestamps, replaying `recalculate_stats` (reset both aggregates, replay all
CLOSED lots in ascending exit-timestamp order) over the final outcome list
reproduces exactly the position performances and portfolio statistics that
`record_exit` maintained incrementally as each lot closed. -/
theorem C5_rebuild_equivalence (events : List Event)
    (hmono : (events.map Event.ts).Chain' (fun x y => x < y)) :
    ((events.foldl applyEvent {}).recalculate_stats).position_perfs =
      (events.foldl applyEvent {}).position_perfs ∧
    ((events.foldl applyEvent {}).recalculate_stats).portfolio_stats =
      (events.foldl applyEvent {}).portfolio_stats := by
  obtain ⟨log, b2, inv⟩ : ∃ log b2, AdapterInv (events.foldl applyEvent {}) log b2 := by
    cases events with
    | nil => exact ⟨[], 0, inv_init 0⟩
    | cons e rest =>
      rw [List.map_cons] at hmono
      refine inv_run (e :: rest) {} [] (e.ts - 1) (inv_init _) ?_
      rw [List.map_cons]
      exact List.chain_cons.mpr ⟨by linarith, hmono⟩
  exact recalc_eq inv

/-- Closed instance of `C5_rebuild_equivalence`: a single entry followed by a
full exit, at timestamps 0 < 1. -/
theorem C5_rebuild_equivalence_witness :
    (([Event.entry "AUSDT" "A" 10 1 0, Event.exitEv "AUSDT" 20 1 1].foldl applyEvent
        {}).recalculate_stats).position_perfs =
      ([Event.entry "AUSDT" "A" 10 1 0, Event.exitEv "AUSDT" 20 1 1].foldl applyEvent
        {}).position_perfs ∧
    (([Event.entry "AUSDT" "A" 10 1 0, Event.exitEv "AUSDT" 20 1 1].foldl applyEvent
        {}).recalculate_stats).portfolio_stats =
      ([Event.entry "AUSDT" "A" 10 1 0, Event.exitEv "AUSDT" 20 1 1].foldl applyEvent
        {}).portfolio_stats :=
  C5_rebuild_equivalence [Event.entry "AUSDT" "A" 10 1 0, Event.exitEv "AUSDT" 20 1 1]
    (by norm_num [Event.ts, List.chain'_cons])

end LuminaCapital
